import Mathlib

/-!
Verification development for the MCP-to-Skill converter
(`mcp_to_skill.py` and the generated `skills/trello/executor.py`).

The Python sources are shallowly embedded below.  Conventions of the
embedding:

* JSON documents (the result of Python's `json.load`) are modelled by the
  inductive type `JVal`.  JSON numbers are modelled as integers; none of the
  data the claims are about carries fractional numbers.
* Python exceptions are modelled by the error type `PyErr` together with
  `Except PyErr`.  `ValueError` raised by `parse_mcp_config` plays the role
  of the spec's `ConfigFormatError`.
* Python's `in` operator, subscription, dict assignment and the truthiness
  of optional string arguments are modelled by `pyContains`, `pySubscript`,
  `setField` and `pyTruthyStr`, with CPython's documented semantics
  (substring test on strings, element test on lists, key test on dicts,
  `TypeError` otherwise).
* Python float arithmetic in the savings formula is modelled by exact
  rational arithmetic; `int(...)` is `ratTrunc` (truncation toward zero).
  At every concrete catalog size appearing below the float and the rational
  computation agree.
-/

namespace McpToSkill

/-- JSON values as produced by Python's `json.load`.  Objects keep their
insertion order, as Python dicts do.  Numbers are modelled as integers. -/
inductive JVal where
  | null : JVal
  | bool (b : Bool) : JVal
  | num (n : Int) : JVal
  | str (s : String) : JVal
  | arr (elems : List JVal) : JVal
  | obj (fields : List (String × JVal)) : JVal

/-- Python exceptions that the embedded code can raise. -/
inductive PyErr where
  | typeErr (msg : String) : PyErr
  | valueErr (msg : String) : PyErr
  | keyErr (key : String) : PyErr
  | attrErr (msg : String) : PyErr
  | zeroDiv : PyErr
deriving DecidableEq

/-- `needle` occurs as a contiguous run of characters of `hay`
(Python's substring test `needle in hay`). -/
def strSubstr (needle hay : String) : Bool :=
  hay.data.tails.any (fun t => needle.data.isPrefixOf t)

/-- First value stored under key `k` (Python dicts have unique keys, so the
first hit is the only one). -/
def lookupField (fs : List (String × JVal)) (k : String) : Option JVal :=
  (fs.find? (fun p => p.1 == k)).map (·.2)

/-- Python dict assignment `d[k] = v`: overwrite in place if the key exists
(keeping its position), otherwise append the new binding at the end. -/
def setField (fs : List (String × JVal)) (k : String) (v : JVal) :
    List (String × JVal) :=
  if fs.any (fun p => p.1 == k) then
    fs.map (fun p => if p.1 == k then (k, v) else p)
  else fs ++ [(k, v)]

/-- Python's `key in data` for a string `key`: key test on dicts, element
test on lists, substring test on strings, `TypeError` otherwise. -/
def pyContains (key : String) : JVal → Except PyErr Bool
  | .obj fs => .ok (fs.any (fun p => p.1 == key))
  | .arr xs => .ok (xs.any (fun x => match x with | .str s => s == key | _ => false))
  | .str s => .ok (strSubstr key s)
  | _ => .error (.typeErr "argument of type is not iterable")

/-- Python's `data[key]` for a string `key`. -/
def pySubscript (data : JVal) (key : String) : Except PyErr JVal :=
  match data with
  | .obj fs =>
    match lookupField fs key with
    | some v => .ok v
    | none => .error (.keyErr key)
  | .arr _ => .error (.typeErr "list indices must be integers or slices, not str")
  | .str _ => .error (.typeErr "string indices must be integers")
  | _ => .error (.typeErr "object is not subscriptable")

/-- Truthiness of the optional `server_name` argument (`None` and the empty
string are falsy in Python). -/
def pyTruthyStr : Option String → Bool
  | none => false
  | some s => !(s == "")

/-- The loop body of `parse_mcp_config` over the `mcpServers` entries:
skip entries not matching a truthy `server_name` filter, set
`config["name"] = name` on each kept entry and collect it.  Assigning into a
non-dict entry raises `TypeError`, as in Python. -/
def collectServers (server_name : Option String) :
    List (String × JVal) → Except PyErr (List JVal)
  | [] => .ok []
  | (name, cfg) :: rest =>
    if pyTruthyStr server_name && !(name == server_name.getD "") then
      collectServers server_name rest
    else
      match cfg with
      | .obj cfs =>
        match collectServers server_name rest with
        | .ok tail => .ok (.obj (setField cfs "name" (.str name)) :: tail)
        | .error e => .error e
      | _ => .error (.typeErr "object does not support item assignment")

/-- The message of the `ValueError` raised by `parse_mcp_config`
(the spec's `ConfigFormatError`). -/
def configFormatErrorMsg : String :=
  "Invalid config format. Expected \x27mcpServers\x27 or single server config."

/-- `parse_mcp_config` from `mcp_to_skill.py` (lines 384-406), after
`json.load` has produced `data`.  Supports the `mcpServers` mapping shape
and the single-server shape carrying `command` or `url`. -/
def parse_mcp_config (data : JVal) (server_name : Option String) :
    Except PyErr (List JVal) := do
  let hasMcp ← pyContains "mcpServers" data
  if hasMcp then
    let v ← pySubscript data "mcpServers"
    match v with
    | .obj entries => collectServers server_name entries
    | _ => .error (.attrErr "items")
  else
    let hasCmd ← pyContains "command" data
    if hasCmd then .ok [data]
    else
      let hasUrl ← pyContains "url" data
      if hasUrl then .ok [data]
      else .error (.valueErr configFormatErrorMsg)

example :
    parse_mcp_config
      (.obj [("mcpServers",
        .obj [("weather", .obj [("command", .str "wx-server"),
                                ("args", .arr [.str "--mode", .str "json"])])])])
      none =
    .ok [.obj [("command", .str "wx-server"),
               ("args", .arr [.str "--mode", .str "json"]),
               ("name", .str "weather")]] := by rfl

example : parse_mcp_config (.str "curl") none = .ok [.str "curl"] := by rfl

example : parse_mcp_config (.num 42) none =
    .error (.typeErr "argument of type is not iterable") := by rfl

example : parse_mcp_config (.obj [("foo", .str "bar")]) none =
    .error (.valueErr configFormatErrorMsg) := by rfl

/-! ### Tool descriptors and the generation-time catalog fetch -/

/-- A tool record: the dicts returned by `_get_mcp_tools` and the tool
objects the executor receives from the client library both carry a string
`name`, an optional `description` and an input schema. -/
structure ToolInfo where
  name : String
  description : Option String
  inputSchema : JVal

/-- The `inputSchema` of the hard-coded mock tool (lines 78-84 of
`mcp_to_skill.py`). -/
def exampleToolSchema : JVal :=
  .obj [("type", .str "object"),
        ("properties",
          .obj [("param1", .obj [("type", .str "string"),
                                 ("description", .str "First parameter")])]),
        ("required", .arr [.str "param1"])]

/-- The single mock catalog entry returned by `_get_mcp_tools`. -/
def exampleTool : ToolInfo :=
  { name := "example_tool"
    description := some "An example tool from the MCP server"
    inputSchema := exampleToolSchema }

/-- `_get_mcp_tools` (lines 62-86): reads `config.get("command", "")` only
to print a progress message, never opens a session, and returns the
hard-coded mock catalog unconditionally. -/
def get_mcp_tools (_config : JVal) : List ToolInfo := [exampleTool]

/-- The catalog fetch as section 4.3 of the spec describes it, for
comparison with `get_mcp_tools`: this definition follows the spec text, not
the code.  `remote` is the catalog the remote would report over one
TransportSession (`none` when the remote is unreachable, in which case the
placeholder single-entry catalog is permitted). -/
def specCatalogFetch (remote : Option (List ToolInfo)) : List ToolInfo :=
  match remote with
  | some catalog => catalog
  | none => [exampleTool]

/-- `config.get(k)` on a generator config dict. -/
def jGet (config : JVal) (k : String) : Option JVal :=
  match config with
  | .obj fs => lookupField fs k
  | _ => none

/-- `_get_transport_type` (lines 32-36).  Non-string `url` values are not
modelled (Python would interpolate their repr); configs under test carry
string urls. -/
def get_transport_type (config : JVal) : String :=
  match jGet config "type" with
  | some (.str t) =>
    if t == "http" then
      "HTTP (" ++ (match jGet config "url" with
                   | some (.str u) => u
                   | _ => "unknown") ++ ")"
    else "stdio (local process)"
  | _ => "stdio (local process)"

/-! ### The token-budget arithmetic of `_generate_skill_md` -/

/-- `int((1 - 5000 / (tool_count * 500)) * 100)` from line 219 of
`mcp_to_skill.py`.  The float expression is modelled by exact rational
arithmetic: `(1 - 5000/(500n))*100 = ((500n - 5000)*100) / (500n)`, and
Python's `int()` truncates toward zero, which on this quotient is
`Int.tdiv`.  The theorem `pySavings_eq_ratTrunc` below proves that this
definition is the truncation toward zero of the exact value of the source
expression.  Only evaluated behind the `tool_count = 0` guard of
`skillMdContent` (Python raises `ZeroDivisionError` there). -/
def pySavings (n : ℕ) : Int := ((500 * (n : Int) - 5000) * 100).tdiv (500 * n)

example : pySavings 12 = 16 := by decide
example : pySavings 5 = -100 := by decide
example : pySavings 1 = -900 := by decide
example : pySavings 10 = 0 := by decide
example : pySavings 100 = 90 := by decide

/-! ### The generated SKILL.md document

The f-string template of `_generate_skill_md` (lines 102-225), split into
the exact pieces between interpolation points.  The lines carrying the
token-budget figures are named individually so that the theorems below can
speak about them. -/

/-- `- Estimated context: {tool_count * 500} tokens` -/
def estimatedContextLine (n : ℕ) : String :=
  "- Estimated context: " ++ toString (n * 500) ++ " tokens"

/-- The idle-phase figure of the skill approach. -/
def metadataLine : String := "- Metadata only: ~100 tokens"

/-- The active-phase figure of the skill approach. -/
def fullInstructionsLine : String := "- Full instructions (when used): ~5k tokens"

/-- The executing-phase figure of the skill approach. -/
def toolExecutionLine : String := "- Tool execution: 0 tokens (runs externally)"

/-- `| Idle | {tool_count * 500} tokens | 100 tokens |` -/
def idleRow (n : ℕ) : String :=
  "| Idle | " ++ toString (n * 500) ++ " tokens | 100 tokens |"

/-- `| Active | {tool_count * 500} tokens | 5k tokens |` -/
def activeRow (n : ℕ) : String :=
  "| Active | " ++ toString (n * 500) ++ " tokens | 5k tokens |"

/-- `| Executing | {tool_count * 500} tokens | 0 tokens |` -/
def executingRow (n : ℕ) : String :=
  "| Executing | " ++ toString (n * 500) ++ " tokens | 0 tokens |"

/-- `Savings: ~{int((1 - 5000/(tool_count * 500)) * 100)}% reduction in typical usage` -/
def savingsLine (n : ℕ) : String :=
  "Savings: ~" ++ toString (pySavings n) ++ "% reduction in typical usage"

def howItWorksBlock : String :=
  "\n\n## How This Works\n\nInstead of loading all MCP tool definitions upfront, this skill:\n1. Tells you what tools are available (just names and brief descriptions)\n2. You decide which tool to call based on the user\x27s request\n3. Generate a JSON command to invoke the tool\n4. The executor handles the actual MCP communication\n\n## Available Tools\n\n"

def usagePatternBlock : String :=
  "\n\n## Usage Pattern\n\nWhen the user\x27s request matches this skill\x27s capabilities:\n\n**Step 1: Identify the right tool** from the list above\n\n**Step 2: Generate a tool call** in this JSON format:\n\n```json\n\x7b\n  \"tool\": \"tool_name\",\n  \"arguments\": \x7b\n    \"param1\": \"value1\",\n    \"param2\": \"value2\"\n  \x7d\n\x7d\n```\n\n**Step 3: Execute via bash:**\n\n```bash\ncd $SKILL_DIR\npython executor.py --call \x27YOUR_JSON_HERE\x27\n```\n\nIMPORTANT: Replace $SKILL_DIR with the actual discovered path of this skill directory.\n\n## Getting Tool Details\n\nIf you need detailed information about a specific tool\x27s parameters:\n\n```bash\ncd $SKILL_DIR\npython executor.py --describe tool_name\n```\n\nThis loads ONLY that tool\x27s schema, not all tools.\n\n## Examples\n\n### Example 1: Simple tool call\n\nUser: \"Use "

def examplesBlock : String :=
  " to do X\"\n\nYour workflow:\n1. Identify tool: `example_tool`\n2. Generate call JSON\n3. Execute:\n\n```bash\ncd $SKILL_DIR\npython executor.py --call \x27\x7b\"tool\": \"example_tool\", \"arguments\": \x7b\"param1\": \"value\"\x7d\x7d\x27\n```\n\n### Example 2: Get tool details first\n\n```bash\ncd $SKILL_DIR\npython executor.py --describe example_tool\n```\n\nReturns the full schema, then you can generate the appropriate call.\n\n## Error Handling\n\nIf the executor returns an error:\n- Check the tool name is correct\n- Verify required arguments are provided\n- Ensure the MCP server is accessible\n\n## Performance Notes\n\nContext usage comparison for this skill:\n\n| Scenario | MCP (preload) | Skill (dynamic) |\n|----------|---------------|-----------------|\n"

def closingBlock : String :=
  "\n\n---\n\n*This skill was auto-generated from an MCP server configuration.*\n*Generator: mcp_to_skill.py*\n"

/-- Concatenation of a list of document pieces, in order. -/
def strConcat : List String → String
  | [] => ""
  | p :: ps => p ++ strConcat ps

/-- The `- \`{name}\`: {description}` tool summary list of the template
(`"\n".join(...)` over the catalog, in catalog order). -/
def toolListStr (tools : List ToolInfo) : String :=
  String.intercalate "\n"
    (tools.map (fun t => "- `" ++ t.name ++ "`: " ++ t.description.getD "No description"))

/-- The pieces of the SKILL.md template, in template order, for a catalog
of `n` tools. -/
def skillMdPieces (server_name transport tool_list : String) (n : ℕ) :
    List String :=
  ["---\nname: ", server_name,
   "\ndescription: Dynamic access to ", server_name,
   " MCP server (", toString n,
   " tools)\nversion: 1.0.0\n---\n\n# ", server_name,
   " Skill\n\nThis skill provides dynamic access to the ", server_name,
   " MCP server without loading all tool definitions into context.\n\n## Transport Type\n\nThis skill connects via: **",
   transport,
   "**\n\n## Context Efficiency\n\nTraditional MCP approach:\n- All ", toString n,
   " tools loaded at startup\n", estimatedContextLine n,
   "\n\nThis skill approach:\n", metadataLine,
   "\n", fullInstructionsLine,
   "\n", toolExecutionLine,
   howItWorksBlock, tool_list,
   usagePatternBlock, server_name,
   examplesBlock, idleRow n,
   "\n", activeRow n,
   "\n", executingRow n,
   "\n\n", savingsLine n,
   closingBlock]

/-- `_generate_skill_md` (lines 88-229), up to the out-of-scope file write:
the content string it builds.  For an empty catalog the savings
interpolation divides by zero and the f-string raises `ZeroDivisionError`,
so no content is produced. -/
def skillMdContent (server_name transport : String) (tools : List ToolInfo) :
    Except PyErr String :=
  let tool_list := toolListStr tools
  let tool_count := tools.length
  if tool_count = 0 then .error .zeroDiv
  else .ok (strConcat (skillMdPieces server_name transport tool_list tool_count))

/-! ### `json.dump(..., indent=2)`: the serializer used by `_generate_config`

`_generate_config` (lines 362-367) persists the raw config dict with
`json.dump(self.mcp_config, f, indent=2)`.  The serializer below produces
that format: two-space indentation, `",\n"` item separator, `": "` key
separator, empty containers printed inline.  Mandatory escapes (quote,
backslash, control characters) are emitted as in Python; non-ASCII
characters are emitted literally rather than `\uXXXX`-escaped, which does
not affect the load-after-dump behaviour the claims are about. -/

/-- Lower-case hexadecimal digit, as Python emits in `\u00XX` escapes. -/
def hexDigit (n : ℕ) : Char :=
  if n < 10 then Char.ofNat (48 + n) else Char.ofNat (87 + n)

/-- The characters a JSON string literal emits for one character. -/
def escChar (c : Char) : List Char :=
  if c = '"' then ['\\', '"']
  else if c = '\\' then ['\\', '\\']
  else if c = '\n' then ['\\', 'n']
  else if c = '\t' then ['\\', 't']
  else if c = '\r' then ['\\', 'r']
  else if c = Char.ofNat 8 then ['\\', 'b']
  else if c = Char.ofNat 12 then ['\\', 'f']
  else if c.toNat < 32 then
    ['\\', 'u', '0', '0', hexDigit (c.toNat / 16), hexDigit (c.toNat % 16)]
  else [c]

/-- A JSON string literal: quote, escaped characters, quote. -/
def serString (s : String) : List Char :=
  '"' :: ((s.data.map escChar).flatten ++ ['"'])

/-- Decimal digits of a natural number, most significant first. -/
def serNat (n : ℕ) : List Char :=
  if n = 0 then ['0']
  else (Nat.digits 10 n).reverse.map (fun d => Char.ofNat (48 + d))

/-- Decimal rendering of an integer, as Python's `str(int)`. -/
def serInt (n : ℤ) : List Char :=
  if n < 0 then '-' :: serNat n.natAbs else serNat n.natAbs

/-- Indentation of `json.dump(..., indent=2)` at nesting level `lvl`. -/
def indentChars (lvl : ℕ) : List Char := List.replicate (2 * lvl) ' '

/-- Join already-rendered container items with the `",\n"` separator. -/
def joinItems : List (List Char) → List Char
  | [] => []
  | [a] => a
  | a :: rest => a ++ ',' :: '\n' :: joinItems rest

/-- The document `json.dump(v, f, indent=2)` writes, at nesting level
`lvl`. -/
def serVal (lvl : ℕ) : JVal → List Char
  | .null => "null".data
  | .bool true => "true".data
  | .bool false => "false".data
  | .num n => serInt n
  | .str s => serString s
  | .arr [] => ['[', ']']
  | .arr (x :: xs) =>
    '[' :: '\n' ::
      (joinItems ((x :: xs).attach.map
        (fun y => indentChars (lvl + 1) ++ serVal (lvl + 1) y.1)) ++
       '\n' :: (indentChars lvl ++ [']']))
  | .obj [] => ['\x7b', '\x7d']
  | .obj (p :: ps) =>
    '\x7b' :: '\n' ::
      (joinItems ((p :: ps).attach.map
        (fun q => indentChars (lvl + 1) ++ serString q.1.1 ++
                  ':' :: ' ' :: serVal (lvl + 1) q.1.2)) ++
       '\n' :: (indentChars lvl ++ ['\x7d']))
termination_by v => sizeOf v
decreasing_by
  · have := List.sizeOf_lt_of_mem y.2
    simp only [JVal.arr.sizeOf_spec]
    omega
  · have h1 := List.sizeOf_lt_of_mem q.2
    have h2 : sizeOf q.1.2 < sizeOf q.1 := by
      obtain ⟨a, b⟩ := q.1
      simp only [Prod.mk.sizeOf_spec]
      omega
    simp only [JVal.obj.sizeOf_spec]
    omega

/-- `json.dumps(v, indent=2)` as a string. -/
def jsonDumpsIndent2 (v : JVal) : String := ⟨serVal 0 v⟩

/-- The text `_generate_config` writes to `mcp-config.json`:
`json.dump(self.mcp_config, f, indent=2)`. -/
def generate_config_content (config : JVal) : String := jsonDumpsIndent2 config

/-! ### `json.load`: the parser used by the executor

The executor re-reads the persisted config with `json.load(f)`
(`executor.py` line 84).  The recursive-descent reader below accepts the
JSON grammar (numbers restricted to integers, matching the `JVal` model)
and insists, like `json.load`, that nothing but whitespace follows the
document.  Recursion is bounded by explicit fuel; `jsonLoads` supplies
more fuel than any document of the given length can need. -/

/-- The whitespace characters JSON allows between tokens. -/
def isJsonWs (c : Char) : Bool := [' ', '\n', '\t', '\r'].contains c

/-- Drop leading JSON whitespace. -/
def skipWs : List Char → List Char
  | [] => []
  | c :: rest => if isJsonWs c then skipWs rest else c :: rest

/-- Value of one hexadecimal digit. -/
def hexVal (c : Char) : Option ℕ :=
  if '0' ≤ c ∧ c ≤ '9' then some (c.toNat - 48)
  else if 'a' ≤ c ∧ c ≤ 'f' then some (c.toNat - 87)
  else if 'A' ≤ c ∧ c ≤ 'F' then some (c.toNat - 55)
  else none

/-- The character denoted by a single-character JSON escape. -/
def unescapeChar (c : Char) : Option Char :=
  if c = '"' then some '"'
  else if c = '\\' then some '\\'
  else if c = '/' then some '/'
  else if c = 'n' then some '\n'
  else if c = 't' then some '\t'
  else if c = 'r' then some '\r'
  else if c = 'b' then some (Char.ofNat 8)
  else if c = 'f' then some (Char.ofNat 12)
  else none

/-- Read the remainder of a JSON string literal (after the opening quote):
the decoded characters and the input after the closing quote.  Raw control
characters are rejected, as in `json.load`'s strict mode. -/
def parseStringBody : List Char → Option (List Char × List Char)
  | [] => none
  | c :: rest =>
    if c = '"' then some ([], rest)
    else if c = '\\' then
      match rest with
      | [] => none
      | e :: rest2 =>
        if e = 'u' then
          match rest2 with
          | a :: b :: c2 :: d :: rest3 =>
            match hexVal a, hexVal b, hexVal c2, hexVal d with
            | some ha, some hb, some hc, some hd =>
              (parseStringBody rest3).map
                (fun p => (Char.ofNat (((ha * 16 + hb) * 16 + hc) * 16 + hd) :: p.1, p.2))
            | _, _, _, _ => none
          | _ => none
        else
          match unescapeChar e with
          | some u => (parseStringBody rest2).map (fun p => (u :: p.1, p.2))
          | none => none
    else if c.toNat < 32 then none
    else (parseStringBody rest).map (fun p => (c :: p.1, p.2))

/-- Numeric value of a big-endian list of decimal digit characters. -/
def digitsToNat (ds : List Char) : ℕ :=
  ds.foldl (fun a c => 10 * a + (c.toNat - 48)) 0

/-- Read an integer literal (optional minus sign, decimal digits). -/
def parseNumberTok : List Char → Option (JVal × List Char)
  | [] => none
  | c :: rest =>
    if c = '-' then
      match rest.span (fun d => d.isDigit) with
      | (ds, r) => if ds.isEmpty then none
                   else some (.num (-(digitsToNat ds : Int)), r)
    else
      match (c :: rest).span (fun d => d.isDigit) with
      | (ds, r) => if ds.isEmpty then none
                   else some (.num ((digitsToNat ds : ℕ) : Int), r)

mutual

/-- Read one JSON value, returning it with the unconsumed input. -/
def parseVal (fuel : ℕ) (cs : List Char) : Option (JVal × List Char) :=
  match fuel with
  | 0 => none
  | f + 1 =>
    match skipWs cs with
    | [] => none
    | c :: rest =>
      if c = 'n' then
        match rest with
        | 'u' :: 'l' :: 'l' :: r => some (.null, r)
        | _ => none
      else if c = 't' then
        match rest with
        | 'r' :: 'u' :: 'e' :: r => some (.bool true, r)
        | _ => none
      else if c = 'f' then
        match rest with
        | 'a' :: 'l' :: 's' :: 'e' :: r => some (.bool false, r)
        | _ => none
      else if c = '"' then
        (parseStringBody rest).map (fun p => (.str ⟨p.1⟩, p.2))
      else if c = '[' then
        match skipWs rest with
        | [] => none
        | d :: r =>
          if d = ']' then some (.arr [], r)
          else (parseArrItems f (d :: r)).map (fun p => (.arr p.1, p.2))
      else if c = '\x7b' then
        match skipWs rest with
        | [] => none
        | d :: r =>
          if d = '\x7d' then some (.obj [], r)
          else (parseObjItems f (d :: r)).map (fun p => (.obj p.1, p.2))
      else if c = '-' || c.isDigit then
        parseNumberTok (c :: rest)
      else none
termination_by 2 * fuel
decreasing_by all_goals omega

/-- Read the items of a non-empty JSON array, up to and including the
closing bracket. -/
def parseArrItems (fuel : ℕ) (cs : List Char) : Option (List JVal × List Char) :=
  match fuel with
  | 0 => none
  | f + 1 =>
    match parseVal (f + 1) cs with
    | none => none
    | some (v, r) =>
      match skipWs r with
      | [] => none
      | d :: r2 =>
        if d = ',' then (parseArrItems f r2).map (fun p => (v :: p.1, p.2))
        else if d = ']' then some ([v], r2)
        else none
termination_by 2 * fuel + 1
decreasing_by all_goals omega

/-- Read the entries of a non-empty JSON object, up to and including the
closing brace. -/
def parseObjItems (fuel : ℕ) (cs : List Char) :
    Option (List (String × JVal) × List Char) :=
  match fuel with
  | 0 => none
  | f + 1 =>
    match skipWs cs with
    | [] => none
    | c :: rest =>
      if c = '"' then
        match parseStringBody rest with
        | none => none
        | some (k, r) =>
          match skipWs r with
          | [] => none
          | d :: r2 =>
            if d = ':' then
              match parseVal (f + 1) r2 with
              | none => none
              | some (v, r3) =>
                match skipWs r3 with
                | [] => none
                | e :: r4 =>
                  if e = ',' then
                    (parseObjItems f r4).map (fun p => ((⟨k⟩, v) :: p.1, p.2))
                  else if e = '\x7d' then some ([(⟨k⟩, v)], r4)
                  else none
            else none
      else none
termination_by 2 * fuel + 1
decreasing_by all_goals omega

end

/-- `json.load` on a whole document: one value, then only trailing
whitespace. -/
def jsonLoads (s : String) : Option JVal :=
  match parseVal (s.data.length + 1) s.data with
  | some (v, r) => if (skipWs r).isEmpty then some v else none
  | none => none

/-- `json.load(f)` on the persisted `mcp-config.json`, as the executor's
`main` performs it (executor line 84). -/
def executor_load_config (persisted : String) : Option JVal := jsonLoads persisted

/-- Fuel sufficient for `parseVal` to read back the serialization of a
value: one unit per value plus one per container item. -/
def jneed : JVal → ℕ
  | .arr l => 1 + (l.attach.map (fun x => jneed x.1 + 1)).sum
  | .obj l => 1 + (l.attach.map (fun p => jneed p.1.2 + 1)).sum
  | _ => 1
termination_by v => sizeOf v
decreasing_by
  · have := List.sizeOf_lt_of_mem x.2
    simp only [JVal.arr.sizeOf_spec]
    omega
  · have h1 := List.sizeOf_lt_of_mem p.2
    have h2 : sizeOf p.1.2 < sizeOf p.1 := by
      obtain ⟨a, b⟩ := p.1
      simp only [Prod.mk.sizeOf_spec]
      omega
    simp only [JVal.obj.sizeOf_spec]
    omega

/-! ### The executor: dispatch, describe, and result rendering -/

/-- `describe_tool` from `executor.py` (lines 55-61): scan the session's
catalog in order and return the first tool whose name matches (its full
record: name, description and input schema); `None` when no name
matches. -/
def describe_tool (tools : List ToolInfo) (tool_name : String) : Option ToolInfo :=
  tools.find? (fun t => t.name == tool_name)

/-- `list_tools` from `executor.py` (lines 49-52): name/description pairs
in catalog order. -/
def list_tools (tools : List ToolInfo) : List JVal :=
  tools.map (fun t =>
    .obj [("name", .str t.name),
          ("description", match t.description with
                          | some d => .str d
                          | none => .null)])

/-- The operation one executor invocation performs. -/
inductive ExecOp where
  | opList : ExecOp
  | opDescribe (name : String) : ExecOp
  | opCall (payload : String) : ExecOp
  | opHelp : ExecOp
deriving DecidableEq

/-- Whether an invocation outcome is one of the three tool operations
(`list`, `describe`, `call`) rather than the help fallback. -/
def ExecOp.isToolOperation : ExecOp → Bool
  | .opHelp => false
  | _ => true

/-- The `if args.list: ... elif args.describe: ... elif args.call: ...
else: parser.print_help()` dispatch of the executor's `main` (lines
91-113).  `args.describe` and `args.call` hold `None` or the string passed
on the command line; Python's truthiness makes `None` and `""` fall
through. -/
def selectOp (listFlag : Bool) (describeArg callArg : Option String) : ExecOp :=
  if listFlag then .opList
  else if pyTruthyStr describeArg then .opDescribe (describeArg.getD "")
  else if pyTruthyStr callArg then .opCall (callArg.getD "")
  else .opHelp

/-- One item of a `call_tool` result: a content object that either carries
a `text` attribute or is serialized whole.  `doc` is the JSON form of the
item that `json.dumps(item, indent=2)` would print. -/
structure ContentItem where
  text : Option String
  doc : JVal

/-- `item.text if hasattr(item, 'text') else json.dumps(item, indent=2)`
(executor line 109). -/
def renderContentItem (item : ContentItem) : String :=
  match item.text with
  | some t => t
  | none => jsonDumpsIndent2 item.doc

/-- The value `call_tool` hands back: a list of content items, or (outside
the normalized path) some other JSON-able value. -/
inductive CallResult where
  | items (l : List ContentItem) : CallResult
  | other (v : JVal) : CallResult

/-- The lines the `--call` branch of `main` prints (executor lines
104-111): one line per content item when the result is a list, otherwise
one serialized document. -/
def renderCallOutput : CallResult → List String
  | .items l => l.map renderContentItem
  | .other v => [jsonDumpsIndent2 v]

/-- `needle` occurs contiguously inside `hay` (used to state what the
generated document reports). -/
def strIncl (needle hay : String) : Prop := needle.data <:+: hay.data

/-- Whether a JSON value is an object. -/
def JVal.isObj : JVal → Bool
  | .obj _ => true
  | _ => false

/-- The record `parse_mcp_config` produces from one `mcpServers` entry
`(key, body)`: the body with its `name` field set to the key. -/
def namedRecord (p : String × JVal) : JVal :=
  match p.2 with
  | .obj cfs => .obj (setField cfs "name" (.str p.1))
  | _ => p.2

/-- The input does not continue with a decimal digit (so that a completed
number token cannot capture following characters). -/
def headNotDigit : List Char → Prop
  | [] => True
  | c :: _ => c.isDigit = false

/-- `jneed` summed over a list of container items. -/
def jneedItems (l : List JVal) : ℕ := (l.map (fun x => jneed x + 1)).sum

/-- `jneed` summed over the values of object entries. -/
def jneedFields (l : List (String × JVal)) : ℕ :=
  (l.map (fun p => jneed p.2 + 1)).sum

/-- The serialized text that follows the first item of a non-empty array:
the remaining items (each preceded by `",\n"` and its indentation) and the
closing bracket, then `rest`. -/
def arrRest (lvl lvl' : ℕ) (xs : List JVal) (rest : List Char) : List Char :=
  match xs with
  | [] => '\n' :: (indentChars lvl ++ ']' :: rest)
  | x :: xs' =>
    ',' :: '\n' :: (indentChars lvl' ++ (serVal lvl' x ++ arrRest lvl lvl' xs' rest))

/-- The serialized text that follows the first entry of a non-empty
object: the remaining entries and the closing brace, then `rest`. -/
def objRest (lvl lvl' : ℕ) (ps : List (String × JVal)) (rest : List Char) :
    List Char :=
  match ps with
  | [] => '\n' :: (indentChars lvl ++ '\x7d' :: rest)
  | q :: ps' =>
    ',' :: '\n' :: (indentChars lvl' ++
      (serString q.1 ++ ':' :: ' ' :: (serVal lvl' q.2 ++ objRest lvl lvl' ps' rest)))

/-- Structural induction over `JVal` with membership hypotheses for the
container cases. -/
def JVal.memInduction {P : JVal → Prop}
    (hnull : P .null) (hbool : ∀ b, P (.bool b)) (hnum : ∀ n, P (.num n))
    (hstr : ∀ s, P (.str s))
    (harr : ∀ l, (∀ x ∈ l, P x) → P (.arr l))
    (hobj : ∀ l, (∀ p ∈ l, P p.2) → P (.obj l)) : ∀ v, P v
  | .null => hnull
  | .bool b => hbool b
  | .num n => hnum n
  | .str s => hstr s
  | .arr l => harr l (fun x _ =>
      JVal.memInduction hnull hbool hnum hstr harr hobj x)
  | .obj l => hobj l (fun p _ =>
      JVal.memInduction hnull hbool hnum hstr harr hobj p.2)
termination_by v => sizeOf v
decreasing_by
  · rename_i hx
    have := List.sizeOf_lt_of_mem hx
    simp only [JVal.arr.sizeOf_spec]
    omega
  · rename_i hp
    have h1 := List.sizeOf_lt_of_mem hp
    have h2 : sizeOf p.2 < sizeOf p := by
      obtain ⟨a, b⟩ := p
      simp only [Prod.mk.sizeOf_spec]
      omega
    simp only [JVal.obj.sizeOf_spec]
    omega

end McpToSkill

namespace McpToSkill

/-! ## Substring infrastructure -/

theorem strIncl_head (x b : String) : strIncl x (x ++ b) :=
  ⟨[], b.data, by simp⟩

theorem strIncl_appL (a : String) {x b : String} (h : strIncl x b) :
    strIncl x (a ++ b) := by
  obtain ⟨s, t, hst⟩ := h
  exact ⟨a.data ++ s, t, by simp [List.append_assoc, hst]⟩

theorem strIncl_concat_of_mem {x : String} :
    ∀ {ps : List String}, x ∈ ps → strIncl x (strConcat ps) := by
  intro ps
  induction ps with
  | nil => intro h; cases h
  | cons p ps ih =>
    intro h
    rcases List.mem_cons.mp h with rfl | h
    · exact strIncl_head x (strConcat ps)
    · exact strIncl_appL p (ih h)

/-! ## The savings figure: truncation of the exact rational value -/

/-- `pySavings` is the truncation toward zero (Python's `int()`) of the
exact value of `(1 - 5000/(tool_count * 500)) * 100`. -/
theorem pySavings_eq_ratTrunc (n : ℕ) (hn : n ≠ 0) :
    pySavings n =
      if (0 : ℚ) ≤ (1 - 5000 / ((n : ℚ) * 500)) * 100
      then ⌊(1 - 5000 / ((n : ℚ) * 500)) * 100⌋
      else -⌊-((1 - 5000 / ((n : ℚ) * 500)) * 100)⌋ := by
  have hnq : ((n : ℚ)) ≠ 0 := Nat.cast_ne_zero.mpr hn
  set p : ℤ := (500 * (n : ℤ) - 5000) * 100 with hp
  set d : ℕ := 500 * n with hd
  have hdpos : 0 < d := by positivity
  have hdq : (0 : ℚ) < (d : ℚ) := by exact_mod_cast hdpos
  have hE : (1 - 5000 / ((n : ℚ) * 500)) * 100 = (p : ℚ) / (d : ℚ) := by
    rw [hp, hd]
    push_cast
    field_simp
    ring
  rw [hE]
  by_cases hsgn : (0 : ℚ) ≤ (p : ℚ) / (d : ℚ)
  · have hp0 : 0 ≤ p := by
      have := (le_div_iff₀ hdq).mp hsgn
      rw [zero_mul] at this
      exact_mod_cast this
    rw [if_pos hsgn, Rat.floor_intCast_div_natCast]
    unfold pySavings
    rw [show ((500 : ℤ) * (n : ℤ) - 5000) * 100 = p from rfl,
        show (500 : ℤ) * (n : ℕ) = (d : ℤ) by rw [hd]; push_cast; ring]
    exact Int.tdiv_eq_ediv hp0 (by exact_mod_cast hdpos.le)
  · have hp0 : p < 0 := by
      by_contra hc
      push_neg at hc
      exact hsgn (div_nonneg (by exact_mod_cast hc) hdq.le)
    rw [if_neg hsgn]
    have hneg : -((p : ℚ) / (d : ℚ)) = ((-p : ℤ) : ℚ) / (d : ℚ) := by
      push_cast
      ring
    rw [hneg, Rat.floor_intCast_div_natCast]
    unfold pySavings
    rw [show ((500 : ℤ) * (n : ℤ) - 5000) * 100 = p from rfl,
        show (500 : ℤ) * (n : ℕ) = (d : ℤ) by rw [hd]; push_cast; ring]
    have : p.tdiv (d : ℤ) = -((-p).tdiv (d : ℤ)) := by
      rw [← Int.neg_tdiv, neg_neg]
    rw [this, Int.tdiv_eq_ediv (by omega) (by exact_mod_cast hdpos.le)]

/-! ## The generated document -/

/-- For a non-empty catalog the generator produces the document, and every
template piece occurs in it. -/
theorem skillMd_ok (server_name transport : String) (tools : List ToolInfo)
    (h : tools.length ≠ 0) :
    skillMdContent server_name transport tools =
      .ok (strConcat
        (skillMdPieces server_name transport (toolListStr tools) tools.length)) := by
  unfold skillMdContent
  simp [h]

theorem skillMd_piece (server_name transport : String) (tools : List ToolInfo)
    (h : tools.length ≠ 0) {x : String}
    (hx : x ∈ skillMdPieces server_name transport (toolListStr tools) tools.length) :
    ∃ doc, skillMdContent server_name transport tools = .ok doc ∧ strIncl x doc :=
  ⟨_, skillMd_ok server_name transport tools h, strIncl_concat_of_mem hx⟩

/-! ## Claim C1: the savings figure -/

/-- C1 fails as stated: the code computes the savings with `int()`
(truncation toward zero), not `round(..)`.  At 12 tools the document
reports 16 while `round((1 - 5000/6000) * 100) = 17`; the reported line is
`Savings: ~16% reduction in typical usage`. -/
theorem c1_counterexample :
    pySavings 12 = 16 ∧
    round ((1 - 5000 / ((12 : ℚ) * 500)) * 100) = 17 ∧
    savingsLine 12 = "Savings: ~16% reduction in typical usage" ∧
    (16 : ℤ) ≠ 17 := by
  refine ⟨by decide, ?_, by decide, by decide⟩
  norm_num [round_eq]

/-- C1 (amended): for every catalog with `tool_count ≥ 1`, the generated
artifact reports `savings_percent` equal to the truncation toward zero
(Python `int()`) of `(1 - active_tokens/baseline_tokens) * 100` with
`active_tokens = 5000` and `baseline_tokens = tool_count * 500`; a catalog
of 12 tools yields 16, and a catalog of 5 tools yields -100, reported as
computed, not clamped. -/
theorem c1_amended_savings_reported (server_name transport : String)
    (tools : List ToolInfo) (h : tools.length ≠ 0) :
    (∃ doc, skillMdContent server_name transport tools = .ok doc ∧
       strIncl (savingsLine tools.length) doc) ∧
    (∀ m : ℕ, m ≠ 0 →
       pySavings m =
         if (0 : ℚ) ≤ (1 - 5000 / ((m : ℚ) * 500)) * 100
         then ⌊(1 - 5000 / ((m : ℚ) * 500)) * 100⌋
         else -⌊-((1 - 5000 / ((m : ℚ) * 500)) * 100)⌋) ∧
    pySavings 12 = 16 ∧ pySavings 5 = -100 :=
  ⟨skillMd_piece server_name transport tools h (by simp [skillMdPieces]),
   pySavings_eq_ratTrunc, by decide, by decide⟩

/-- C1 (amended) applied to a concrete 12-tool catalog. -/
theorem c1_amended_savings_reported_witness :
    (List.replicate 12 exampleTool).length ≠ 0 ∧
    (∃ doc, skillMdContent "srv" "stdio (local process)"
        (List.replicate 12 exampleTool) = .ok doc ∧
       strIncl (savingsLine (List.replicate 12 exampleTool).length) doc) :=
  ⟨by decide,
   (c1_amended_savings_reported "srv" "stdio (local process)"
     (List.replicate 12 exampleTool) (by decide)).1⟩

/-! ## Claim C4: the fixed token-budget figures -/

/-- C4: for every non-empty catalog the generated document states the
fixed figures `~100 tokens` (idle), `~5k tokens` (active), `0 tokens`
(executing) — constants independent of catalog size — and the baseline
`tool_count * 500` tokens, both in the context-efficiency list and in
every row of the performance table.  (For the empty catalog no document is
generated at all; see the C10 theorem.) -/
theorem c4_token_budget_figures (server_name transport : String)
    (tools : List ToolInfo) (h : tools.length ≠ 0) :
    ∃ doc, skillMdContent server_name transport tools = .ok doc ∧
      strIncl metadataLine doc ∧
      strIncl fullInstructionsLine doc ∧
      strIncl toolExecutionLine doc ∧
      strIncl (estimatedContextLine tools.length) doc ∧
      strIncl (idleRow tools.length) doc ∧
      strIncl (activeRow tools.length) doc ∧
      strIncl (executingRow tools.length) doc := by
  refine ⟨_, skillMd_ok server_name transport tools h, ?_, ?_, ?_, ?_, ?_, ?_, ?_⟩ <;>
    exact strIncl_concat_of_mem (by simp [skillMdPieces])

/-- C4 applied to a concrete single-tool catalog. -/
theorem c4_token_budget_figures_witness :
    ([exampleTool].length ≠ 0) ∧
    (∃ doc, skillMdContent "srv" "stdio (local process)" [exampleTool] = .ok doc ∧
      strIncl metadataLine doc ∧
      strIncl fullInstructionsLine doc ∧
      strIncl toolExecutionLine doc ∧
      strIncl (estimatedContextLine [exampleTool].length) doc ∧
      strIncl (idleRow [exampleTool].length) doc ∧
      strIncl (activeRow [exampleTool].length) doc ∧
      strIncl (executingRow [exampleTool].length) doc) :=
  ⟨by decide,
   c4_token_budget_figures "srv" "stdio (local process)" [exampleTool] (by decide)⟩

/-! ## Claim C2: the generation-time catalog fetch -/

/-- C2: the claim describes the documented intent (the docstring of
`_get_mcp_tools` says it connects to the server and gets the available
tools), but the body never opens a session: it returns the hard-coded
single-entry mock catalog for every configuration, so a reachable remote
reporting any other catalog — here a Trello-like one — is never
reflected. -/
theorem c2_fetch_never_contacts_remote :
    get_mcp_tools (.obj [("name", .str "trello"),
                         ("command", .str "npx")]) = [exampleTool] ∧
    (∀ config, get_mcp_tools config = [exampleTool]) ∧
    specCatalogFetch
        (some [{ name := "get_boards",
                 description := some "List Trello boards",
                 inputSchema := .obj [] }]) ≠
      get_mcp_tools (.obj [("name", .str "trello"), ("command", .str "npx")]) := by
  refine ⟨rfl, fun _ => rfl, ?_⟩
  simp [specCatalogFetch, get_mcp_tools, exampleTool]

/-! ## Claim C3: parsing the `mcpServers` shape -/

theorem collectServers_none :
    ∀ entries : List (String × JVal), (∀ p ∈ entries, (p.2).isObj = true) →
      collectServers none entries = .ok (entries.map namedRecord) := by
  intro entries
  induction entries with
  | nil => intro _; rfl
  | cons e rest ih =>
    intro hb
    obtain ⟨name, cfg⟩ := e
    have hcfg : cfg.isObj = true := hb (name, cfg) (List.mem_cons_self _ _)
    have htail := ih (fun p hp => hb p (List.mem_cons_of_mem _ hp))
    rcases cfg with _ | b | n | s | l | cfs
    · simp [JVal.isObj] at hcfg
    · simp [JVal.isObj] at hcfg
    · simp [JVal.isObj] at hcfg
    · simp [JVal.isObj] at hcfg
    · simp [JVal.isObj] at hcfg
    · simp only [collectServers, pyTruthyStr, Bool.false_and, Bool.and_eq_true,
        if_false, List.map_cons]
      rw [htail]
      rfl

theorem collectServers_filter (sn : String) (hsn : sn ≠ "") :
    ∀ entries : List (String × JVal), (∀ p ∈ entries, (p.2).isObj = true) →
      collectServers (some sn) entries =
        .ok ((entries.filter (fun p => p.1 == sn)).map namedRecord) := by
  intro entries
  induction entries with
  | nil => intro _; rfl
  | cons e rest ih =>
    intro hb
    obtain ⟨name, cfg⟩ := e
    have hcfg : cfg.isObj = true := hb (name, cfg) (List.mem_cons_self _ _)
    have htail := ih (fun p hp => hb p (List.mem_cons_of_mem _ hp))
    have htruthy : pyTruthyStr (some sn) = true := by
      simp [pyTruthyStr, hsn]
    by_cases hname : name = sn
    · subst hname
      rcases cfg with _ | b | n | s | l | cfs
      · simp [JVal.isObj] at hcfg
      · simp [JVal.isObj] at hcfg
      · simp [JVal.isObj] at hcfg
      · simp [JVal.isObj] at hcfg
      · simp [JVal.isObj] at hcfg
      · have hcond : (pyTruthyStr (some name) &&
            !(name == (Option.some name).getD "")) = false := by
          simp
        simp only [collectServers]
        rw [hcond, htail]
        simp [namedRecord, List.filter_cons]
    · have hbeq : (name == sn) = false := by
        simp [hname]
      have hcond : (pyTruthyStr (some sn) &&
          !(name == (Option.some sn).getD "")) = true := by
        simp [htruthy, hbeq]
      simp only [collectServers]
      rw [hcond, htail]
      simp [List.filter_cons, hbeq]

/-- C3: for every config document of the `mcpServers` shape whose entry
bodies are objects, the parser returns one record per entry, in insertion
order, each the entry body with its `name` field set to the map key; a
non-empty filter name restricts the result to exactly the entries carrying
that key. -/
theorem c3_mcpServers_records (fields entries : List (String × JVal))
    (hm : lookupField fields "mcpServers" = some (.obj entries))
    (hb : ∀ p ∈ entries, (p.2).isObj = true) :
    parse_mcp_config (.obj fields) none = .ok (entries.map namedRecord) ∧
    (∀ sn : String, sn ≠ "" →
       parse_mcp_config (.obj fields) (some sn) =
         .ok ((entries.filter (fun p => p.1 == sn)).map namedRecord)) := by
  have hany : (fields.any (fun p => p.1 == "mcpServers")) = true := by
    unfold lookupField at hm
    rcases hfind : fields.find? (fun p => p.1 == "mcpServers") with _ | q
    · rw [hfind] at hm; simp at hm
    · have hq : (q.1 == "mcpServers") = true :=
        @List.find?_some (String × JVal) (fun p => p.1 == "mcpServers") q fields hfind
      exact List.any_eq_true.mpr ⟨q, List.mem_of_find?_eq_some hfind, hq⟩
  have h1 : pyContains "mcpServers" (.obj fields) = .ok true := by
    simp [pyContains, hany]
  have h2 : pySubscript (.obj fields) "mcpServers" = .ok (.obj entries) := by
    simp [pySubscript, hm]
  constructor
  · unfold parse_mcp_config
    rw [h1, h2]
    show collectServers none entries = _
    exact collectServers_none entries hb
  · intro sn hsn
    unfold parse_mcp_config
    rw [h1, h2]
    show collectServers (some sn) entries = _
    exact collectServers_filter sn hsn entries hb

/-- C3 applied to the spec's weather scenario. -/
theorem c3_mcpServers_records_witness :
    (lookupField [("mcpServers",
        JVal.obj [("weather", .obj [("command", .str "wx-server"),
                                    ("args", .arr [.str "--mode", .str "json"])])])]
        "mcpServers" =
      some (.obj [("weather", .obj [("command", .str "wx-server"),
                                    ("args", .arr [.str "--mode", .str "json"])])])) ∧
    parse_mcp_config
        (.obj [("mcpServers",
          .obj [("weather", .obj [("command", .str "wx-server"),
                                  ("args", .arr [.str "--mode", .str "json"])])])])
        none =
      .ok ([("weather", JVal.obj [("command", .str "wx-server"),
                                  ("args", .arr [.str "--mode", .str "json"])])].map
            namedRecord) := by
  refine ⟨rfl, ?_⟩
  exact (c3_mcpServers_records
    [("mcpServers",
      JVal.obj [("weather", .obj [("command", .str "wx-server"),
                                  ("args", .arr [.str "--mode", .str "json"])])])]
    [("weather", JVal.obj [("command", .str "wx-server"),
                           ("args", .arr [.str "--mode", .str "json"])])]
    rfl (by decide)).1

/-! ## Claim C5: describe on present and absent names -/

/-- C5: `describe_tool` is a total function that returns `None` for every
name absent from the session's catalog, and for a present name returns the
full record (name, description, input schema) of a catalog tool carrying
that name. -/
theorem c5_describe_tool_total (tools : List ToolInfo) (name : String) :
    ((∀ t ∈ tools, t.name ≠ name) → describe_tool tools name = none) ∧
    ((∃ t ∈ tools, t.name = name) →
       ∃ u, describe_tool tools name = some u ∧ u ∈ tools ∧ u.name = name) := by
  constructor
  · intro h
    apply List.find?_eq_none.mpr
    intro t ht hbeq
    exact h t ht (eq_of_beq hbeq)
  · rintro ⟨t, ht, hname⟩
    have hsome : (tools.find? (fun t => t.name == name)).isSome :=
      List.find?_isSome.mpr ⟨t, ht, by simp [hname]⟩
    obtain ⟨u, hu⟩ := Option.isSome_iff_exists.mp hsome
    have hbeq : (u.name == name) = true :=
      @List.find?_some ToolInfo (fun t => t.name == name) u tools hu
    exact ⟨u, hu, List.mem_of_find?_eq_some hu, eq_of_beq hbeq⟩

/-- C5 applied to a concrete catalog: an absent name yields `none`, a
present name yields its full record. -/
theorem c5_describe_tool_total_witness :
    ((∀ t ∈ [exampleTool], t.name ≠ "missing") ∧
      describe_tool [exampleTool] "missing" = none) ∧
    ((∃ t ∈ [exampleTool], t.name = "example_tool") ∧
      ∃ u, describe_tool [exampleTool] "example_tool" = some u ∧
        u ∈ [exampleTool] ∧ u.name = "example_tool") := by
  have h1 : ∀ t ∈ [exampleTool], t.name ≠ "missing" := by decide
  have h2 : ∃ t ∈ [exampleTool], t.name = "example_tool" :=
    ⟨exampleTool, List.mem_cons_self _ _, rfl⟩
  exact ⟨⟨h1, (c5_describe_tool_total [exampleTool] "missing").1 h1⟩,
         ⟨h2, (c5_describe_tool_total [exampleTool] "example_tool").2 h2⟩⟩

/-! ## Claim C6: one operation per invocation -/

/-- C6: counterexample: an executor invocation with none of `--list`,
`--describe`, `--call` performs none of the three operations — `main`
falls through to `parser.print_help()` — so it is not the case that every
process invocation performs exactly one of list, describe or call. -/
theorem c6_counterexample :
    selectOp false none none = .opHelp ∧
    (ExecOp.opHelp).isToolOperation = false := ⟨rfl, rfl⟩

/-- C6 (amended): whenever at least one operation argument is supplied
truthily, the invocation performs exactly one of list, describe or call,
chosen by the fixed priority `list` over `describe` over `call` (extra
flags are ignored rather than rejected); with no truthy operation argument
it performs none and prints the usage text. -/
theorem c6_amended_one_operation (l : Bool) (d c : Option String)
    (h : l = true ∨ pyTruthyStr d = true ∨ pyTruthyStr c = true) :
    (selectOp l d c).isToolOperation = true ∧
    (l = true → selectOp l d c = .opList) ∧
    (l = false → pyTruthyStr d = true → selectOp l d c = .opDescribe (d.getD "")) ∧
    (l = false → pyTruthyStr d = false → pyTruthyStr c = true →
       selectOp l d c = .opCall (c.getD "")) := by
  refine ⟨?_, ?_, ?_, ?_⟩
  · rcases h with h | h | h
    · simp [selectOp, h, ExecOp.isToolOperation]
    · by_cases hl : l <;>
        simp [selectOp, hl, h, ExecOp.isToolOperation]
    · by_cases hl : l <;> by_cases hd : pyTruthyStr d <;>
        simp [selectOp, hl, hd, h, ExecOp.isToolOperation]
  · intro hl; simp [selectOp, hl]
  · intro hl hd; simp [selectOp, hl, hd]
  · intro hl hd hc; simp [selectOp, hl, hd, hc]

/-- C6 (amended) applied to the `--list` invocation. -/
theorem c6_amended_one_operation_witness :
    (true = true ∨ pyTruthyStr none = true ∨ pyTruthyStr none = true) ∧
    (selectOp true none none).isToolOperation = true :=
  ⟨Or.inl rfl, (c6_amended_one_operation true none none (Or.inl rfl)).1⟩

/-! ## Claim C7: normalized call output -/

/-- C7: for a list-shaped call result the executor prints one line per
content item, each rendered as the item's text form when it carries one
and as its serialized JSON document otherwise — a uniform string
representation independent of the item's original shape. -/
theorem c7_call_output_normalized (items : List ContentItem) :
    renderCallOutput (.items items) =
      items.map (fun i => (i.text).getD (jsonDumpsIndent2 i.doc)) := by
  unfold renderCallOutput
  apply List.map_congr_left
  intro i _
  cases h : i.text <;> simp [renderContentItem, h]

/-! ## Claim C8: rejection of unrecognized shapes -/

/-- C8: counterexample: the JSON document `"curl"` — a bare string,
neither a map with an `mcpServers` key nor a body containing `command` or
`url` fields — is accepted and returned as a record instead of failing
with `ConfigFormatError`: Python's `in` is a substring test on strings and
`"url"` occurs in `"curl"`. -/
theorem c8_counterexample :
    parse_mcp_config (.str "curl") none = .ok [.str "curl"] ∧
    (JVal.str "curl").isObj = false := ⟨rfl, rfl⟩

/-- C8 (amended): for every config document that is a JSON object with no
`mcpServers`, `command` or `url` key, `parse_mcp_config` fails with the
`ConfigFormatError` `ValueError` and returns no records. -/
theorem c8_amended_config_format_error (fields : List (String × JVal))
    (sn : Option String)
    (h1 : ∀ p ∈ fields, p.1 ≠ "mcpServers")
    (h2 : ∀ p ∈ fields, p.1 ≠ "command")
    (h3 : ∀ p ∈ fields, p.1 ≠ "url") :
    parse_mcp_config (.obj fields) sn = .error (.valueErr configFormatErrorMsg) := by
  have hc : ∀ k : String, (∀ p ∈ fields, p.1 ≠ k) →
      pyContains k (.obj fields) = .ok false := by
    intro k hk
    simp only [pyContains, Except.ok.injEq]
    rw [List.any_eq_false]
    intro p hp hbeq
    exact hk p hp (eq_of_beq hbeq)
  have e1 := hc "mcpServers" h1
  have e2 := hc "command" h2
  have e3 := hc "url" h3
  unfold parse_mcp_config
  rw [e1, e2, e3]
  rfl

/-- C8 (amended) applied to a concrete one-field object. -/
theorem c8_amended_config_format_error_witness :
    (∀ p ∈ [("foo", JVal.str "bar")], p.1 ≠ "mcpServers") ∧
    (∀ p ∈ [("foo", JVal.str "bar")], p.1 ≠ "command") ∧
    (∀ p ∈ [("foo", JVal.str "bar")], p.1 ≠ "url") ∧
    parse_mcp_config (.obj [("foo", JVal.str "bar")]) none =
      .error (.valueErr configFormatErrorMsg) :=
  ⟨by decide, by decide, by decide,
   c8_amended_config_format_error _ none (by decide) (by decide) (by decide)⟩

/-! ## Claim C10: the empty catalog -/

/-- C10: for an empty catalog the savings interpolation of
`_generate_skill_md` divides by zero (`baseline_tokens = 0`), so the
f-string raises `ZeroDivisionError` and no document is produced;
`tool_count > 0` is an unstated precondition of the savings figure. -/
theorem c10_empty_catalog_division_by_zero (server_name transport : String) :
    skillMdContent server_name transport [] = .error .zeroDiv := rfl

/-! ## Claim C9: persist / reload round trip

The remainder of the file proves that re-reading (`json.load`) the
persisted config text (`json.dump(..., indent=2)`) recovers the original
value exactly, for every `JVal`. -/

theorem skipWs_cons_not {c : Char} (cs : List Char) (h : isJsonWs c = false) :
    skipWs (c :: cs) = c :: cs := by
  simp [skipWs, h]

theorem skipWs_ws_append (pre : List Char) (h : ∀ c ∈ pre, isJsonWs c = true)
    (cs : List Char) : skipWs (pre ++ cs) = skipWs cs := by
  induction pre with
  | nil => rfl
  | cons p pre ih =>
    have hp : isJsonWs p = true := h p (List.mem_cons_self _ _)
    simp only [List.cons_append, skipWs, hp, if_true]
    exact ih (fun c hc => h c (List.mem_cons_of_mem _ hc))

theorem skipWs_indent (lvl : ℕ) (cs : List Char) :
    skipWs (indentChars lvl ++ cs) = skipWs cs := by
  apply skipWs_ws_append
  intro c hc
  rw [indentChars] at hc
  have : c = ' ' := List.eq_of_mem_replicate hc
  subst this
  rfl

theorem skipWs_newline (cs : List Char) : skipWs ('\n' :: cs) = skipWs cs := by
  simp [skipWs, isJsonWs]

theorem parseVal_zero (cs : List Char) : parseVal 0 cs = none := by
  rw [parseVal.eq_def]

theorem parseArrItems_zero (cs : List Char) : parseArrItems 0 cs = none := by
  rw [parseArrItems.eq_def]

theorem parseObjItems_zero (cs : List Char) : parseObjItems 0 cs = none := by
  rw [parseObjItems.eq_def]

theorem parseVal_succ (f : ℕ) (cs : List Char) :
    parseVal (f + 1) cs =
      match skipWs cs with
      | [] => none
      | c :: rest =>
        if c = 'n' then
          match rest with
          | 'u' :: 'l' :: 'l' :: r => some (.null, r)
          | _ => none
        else if c = 't' then
          match rest with
          | 'r' :: 'u' :: 'e' :: r => some (.bool true, r)
          | _ => none
        else if c = 'f' then
          match rest with
          | 'a' :: 'l' :: 's' :: 'e' :: r => some (.bool false, r)
          | _ => none
        else if c = '"' then
          (parseStringBody rest).map (fun p => (.str ⟨p.1⟩, p.2))
        else if c = '[' then
          match skipWs rest with
          | [] => none
          | d :: r =>
            if d = ']' then some (.arr [], r)
            else (parseArrItems f (d :: r)).map (fun p => (.arr p.1, p.2))
        else if c = '\x7b' then
          match skipWs rest with
          | [] => none
          | d :: r =>
            if d = '\x7d' then some (.obj [], r)
            else (parseObjItems f (d :: r)).map (fun p => (.obj p.1, p.2))
        else if c = '-' || c.isDigit then
          parseNumberTok (c :: rest)
        else none := by
  rw [parseVal.eq_def]

theorem parseArrItems_succ (f : ℕ) (cs : List Char) :
    parseArrItems (f + 1) cs =
      match parseVal (f + 1) cs with
      | none => none
      | some (v, r) =>
        match skipWs r with
        | [] => none
        | d :: r2 =>
          if d = ',' then (parseArrItems f r2).map (fun p => (v :: p.1, p.2))
          else if d = ']' then some ([v], r2)
          else none := by
  rw [parseArrItems.eq_def]

theorem parseObjItems_succ (f : ℕ) (cs : List Char) :
    parseObjItems (f + 1) cs =
      match skipWs cs with
      | [] => none
      | c :: rest =>
        if c = '"' then
          match parseStringBody rest with
          | none => none
          | some (k, r) =>
            match skipWs r with
            | [] => none
            | d :: r2 =>
              if d = ':' then
                match parseVal (f + 1) r2 with
                | none => none
                | some (v, r3) =>
                  match skipWs r3 with
                  | [] => none
                  | e :: r4 =>
                    if e = ',' then
                      (parseObjItems f r4).map (fun p => ((⟨k⟩, v) :: p.1, p.2))
                    else if e = '\x7d' then some ([(⟨k⟩, v)], r4)
                    else none
              else none
        else none := by
  rw [parseObjItems.eq_def]

theorem parseVal_ws_append (fuel : ℕ) (pre : List Char)
    (h : ∀ c ∈ pre, isJsonWs c = true) (cs : List Char) :
    parseVal fuel (pre ++ cs) = parseVal fuel cs := by
  cases fuel with
  | zero => rw [parseVal_zero, parseVal_zero]
  | succ f =>
    rw [parseVal_succ, parseVal_succ, skipWs_ws_append pre h]

theorem parseArrItems_ws_append (fuel : ℕ) (pre : List Char)
    (h : ∀ c ∈ pre, isJsonWs c = true) (cs : List Char) :
    parseArrItems fuel (pre ++ cs) = parseArrItems fuel cs := by
  cases fuel with
  | zero => rw [parseArrItems_zero, parseArrItems_zero]
  | succ f =>
    rw [parseArrItems_succ, parseArrItems_succ, parseVal_ws_append _ pre h]

/-- All facts needed about the chars a decimal digit serializes to. -/
theorem digitChar_spec : ∀ d, d < 10 →
    (Char.ofNat (48 + d)).isDigit = true ∧
    (Char.ofNat (48 + d)).toNat - 48 = d ∧
    isJsonWs (Char.ofNat (48 + d)) = false ∧
    Char.ofNat (48 + d) ≠ 'n' ∧ Char.ofNat (48 + d) ≠ 't' ∧
    Char.ofNat (48 + d) ≠ 'f' ∧ Char.ofNat (48 + d) ≠ '"' ∧
    Char.ofNat (48 + d) ≠ '[' ∧ Char.ofNat (48 + d) ≠ '\x7b' ∧
    Char.ofNat (48 + d) ≠ '-' ∧ Char.ofNat (48 + d) ≠ ']' ∧
    Char.ofNat (48 + d) ≠ '\x7d' := by decide

theorem hexVal_hexDigit : ∀ d, d < 16 → hexVal (hexDigit d) = some d := by decide

/-- Reading back the escape sequence of one character. -/
theorem parseStringBody_esc (c : Char) (tail : List Char) :
    parseStringBody (escChar c ++ tail) =
      (parseStringBody tail).map (fun p => (c :: p.1, p.2)) := by
  by_cases h1 : c = '"'
  · subst h1
    rw [show escChar '"' ++ tail = '\\' :: '"' :: tail from rfl,
      parseStringBody.eq_def]
    simp [unescapeChar]
  by_cases h2 : c = '\\'
  · subst h2
    rw [show escChar '\\' ++ tail = '\\' :: '\\' :: tail from rfl,
      parseStringBody.eq_def]
    simp [unescapeChar]
  by_cases h3 : c = '\n'
  · subst h3
    rw [show escChar '\n' ++ tail = '\\' :: 'n' :: tail from rfl,
      parseStringBody.eq_def]
    simp [unescapeChar]
  by_cases h4 : c = '\t'
  · subst h4
    rw [show escChar '\t' ++ tail = '\\' :: 't' :: tail from rfl,
      parseStringBody.eq_def]
    simp [unescapeChar]
  by_cases h5 : c = '\r'
  · subst h5
    rw [show escChar '\r' ++ tail = '\\' :: 'r' :: tail from rfl,
      parseStringBody.eq_def]
    simp [unescapeChar]
  by_cases h6 : c = Char.ofNat 8
  · subst h6
    rw [show escChar (Char.ofNat 8) ++ tail = '\\' :: 'b' :: tail from rfl,
      parseStringBody.eq_def]
    simp [unescapeChar]
  by_cases h7 : c = Char.ofNat 12
  · subst h7
    rw [show escChar (Char.ofNat 12) ++ tail = '\\' :: 'f' :: tail from rfl,
      parseStringBody.eq_def]
    simp [unescapeChar]
  by_cases h8 : c.toNat < 32
  · have hdiv : c.toNat / 16 < 16 := by omega
    have hmod : c.toNat % 16 < 16 := Nat.mod_lt _ (by omega)
    have hesc : escChar c ++ tail =
        '\\' :: 'u' :: '0' :: '0' :: hexDigit (c.toNat / 16) ::
          hexDigit (c.toNat % 16) :: tail := by
      simp [escChar, h1, h2, h3, h4, h5, h6, h7, h8]
    rw [hesc, parseStringBody.eq_def]
    norm_num
    rw [show hexVal '0' = some 0 from rfl, hexVal_hexDigit _ hdiv,
      hexVal_hexDigit _ hmod]
    norm_num
    rw [show c.toNat / 16 * 16 + c.toNat % 16 = c.toNat by omega, Char.ofNat_toNat]
    simp
  · have hesc : escChar c ++ tail = c :: tail := by
      simp [escChar, h1, h2, h3, h4, h5, h6, h7, h8]
    rw [hesc, parseStringBody.eq_def]
    simp [h1, h2, h8]

/-- Reading back a whole serialized string body. -/
theorem parseStringBody_ser (l : List Char) (rest : List Char) :
    parseStringBody ((l.map escChar).flatten ++ '"' :: rest) = some (l, rest) := by
  induction l with
  | nil =>
    rw [show (([] : List Char).map escChar).flatten ++ '"' :: rest =
      '"' :: rest from rfl, parseStringBody.eq_def]
    simp
  | cons c l ih =>
    simp only [List.map_cons, List.flatten_cons, List.append_assoc]
    rw [parseStringBody_esc, ih]
    rfl

/-- Folding the digit characters equals folding the digits. -/
theorem digit_fold (L : List ℕ) (hL : ∀ d ∈ L, d < 10) (a : ℕ) :
    List.foldl (fun acc c => 10 * acc + (c.toNat - 48)) a
      (L.map (fun d => Char.ofNat (48 + d))) =
    List.foldl (fun acc d => 10 * acc + d) a L := by
  induction L generalizing a with
  | nil => rfl
  | cons d L ih =>
    have hd : d < 10 := hL d (List.mem_cons_self _ _)
    have hchr : (Char.ofNat (48 + d)).toNat - 48 = d := (digitChar_spec d hd).2.1
    simp only [List.map_cons, List.foldl_cons, hchr]
    exact ih (fun x hx => hL x (List.mem_cons_of_mem _ hx)) _

theorem foldr_ofDigits (L : List ℕ) :
    List.foldr (fun d acc => 10 * acc + d) 0 L = Nat.ofDigits 10 L := by
  induction L with
  | nil => rfl
  | cons d L ih =>
    rw [Nat.ofDigits_cons, List.foldr_cons, ih]
    ring

theorem digitsToNat_serNat (m : ℕ) : digitsToNat (serNat m) = m := by
  by_cases hm : m = 0
  · subst hm; rfl
  · unfold serNat digitsToNat
    rw [if_neg hm,
      digit_fold _ (fun d hd => Nat.digits_lt_base (by norm_num)
        (List.mem_reverse.mp hd)),
      List.foldl_reverse, foldr_ofDigits]
    exact_mod_cast Nat.ofDigits_digits 10 m

theorem serNat_digits (m : ℕ) : ∀ c ∈ serNat m, c.isDigit = true := by
  intro c hc
  by_cases hm : m = 0
  · subst hm
    simp only [serNat, if_pos rfl, List.mem_singleton] at hc
    simp at hc
    subst hc
    decide
  · simp only [serNat, if_neg hm, List.mem_map] at hc
    obtain ⟨d, hd, rfl⟩ := hc
    exact (digitChar_spec d (Nat.digits_lt_base (by norm_num)
      (List.mem_reverse.mp hd))).1

theorem serNat_ne_nil (m : ℕ) : serNat m ≠ [] := by
  by_cases hm : m = 0
  · subst hm; simp [serNat]
  · simp [serNat, hm, Nat.digits_ne_nil_iff_ne_zero]

theorem serNat_shape (m : ℕ) :
    ∃ d t, d < 10 ∧ serNat m = Char.ofNat (48 + d) :: t := by
  by_cases hm : m = 0
  · subst hm
    exact ⟨0, [], by omega, by decide⟩
  · have hne : Nat.digits 10 m ≠ [] := Nat.digits_ne_nil_iff_ne_zero.mpr hm
    have hne' : (Nat.digits 10 m).reverse ≠ [] := by simpa using hne
    obtain ⟨d, ds, hds⟩ := List.exists_cons_of_ne_nil hne'
    have hd : d < 10 := Nat.digits_lt_base (by norm_num)
      (List.mem_reverse.mp (hds ▸ List.mem_cons_self d ds))
    refine ⟨d, ds.map (fun d => Char.ofNat (48 + d)), hd, ?_⟩
    simp [serNat, hm, hds]

theorem span_digits (ds rest : List Char) (hds : ∀ c ∈ ds, c.isDigit = true)
    (hrest : headNotDigit rest) :
    List.span (fun d => d.isDigit) (ds ++ rest) = (ds, rest) := by
  rw [List.span_eq_take_drop, List.takeWhile_append_of_pos hds,
    List.dropWhile_append_of_pos hds]
  cases rest with
  | nil => simp
  | cons c r =>
    have hc : c.isDigit = false := hrest
    simp [List.takeWhile_cons, List.dropWhile_cons, hc]

/-- Reading back a serialized integer. -/
theorem parseNumberTok_ser (n : ℤ) (rest : List Char) (hrest : headNotDigit rest) :
    parseNumberTok (serInt n ++ rest) = some (.num n, rest) := by
  have hspan := span_digits (serNat n.natAbs) rest (serNat_digits _) hrest
  have hemp : (serNat n.natAbs).isEmpty = false := by
    rcases h : serNat n.natAbs with _ | _
    · exact absurd h (serNat_ne_nil _)
    · rfl
  by_cases hn : n < 0
  · rw [show serInt n = '-' :: serNat n.natAbs from by simp [serInt, hn],
      List.cons_append]
    simp only [parseNumberTok, hspan, hemp]
    simp only [Bool.false_eq_true, if_false, digitsToNat_serNat]
    have hval : -((n.natAbs : ℤ)) = n := by omega
    rw [hval]
    simp
  · rw [show serInt n = serNat n.natAbs from by simp [serInt, hn]]
    obtain ⟨d, t, hd, hshape⟩ := serNat_shape n.natAbs
    have hnm : ¬(Char.ofNat (48 + d) = '-') :=
      (digitChar_spec d hd).2.2.2.2.2.2.2.2.2.1
    rw [hshape, List.cons_append]
    simp only [parseNumberTok, hnm, if_false]
    rw [← List.cons_append, ← hshape, hspan]
    simp only [hemp, Bool.false_eq_true, if_false, digitsToNat_serNat]
    have hval : ((n.natAbs : ℤ)) = n := by omega
    rw [hval]

theorem serVal_null (lvl : ℕ) : serVal lvl .null = ['n', 'u', 'l', 'l'] := by
  rw [serVal.eq_def]

theorem serVal_bool (lvl : ℕ) (b : Bool) :
    serVal lvl (.bool b) =
      if b then ['t', 'r', 'u', 'e'] else ['f', 'a', 'l', 's', 'e'] := by
  cases b <;> rw [serVal.eq_def] <;> rfl

theorem serVal_num (lvl : ℕ) (n : ℤ) : serVal lvl (.num n) = serInt n := by
  rw [serVal.eq_def]

theorem serVal_str (lvl : ℕ) (s : String) : serVal lvl (.str s) = serString s := by
  rw [serVal.eq_def]

theorem serVal_arr_nil (lvl : ℕ) : serVal lvl (.arr []) = ['[', ']'] := by
  rw [serVal.eq_def]

theorem serVal_arr_cons (lvl : ℕ) (x : JVal) (xs : List JVal) :
    serVal lvl (.arr (x :: xs)) =
      '[' :: '\n' ::
        (joinItems ((x :: xs).map
          (fun y => indentChars (lvl + 1) ++ serVal (lvl + 1) y)) ++
         '\n' :: (indentChars lvl ++ [']'])) := by
  rw [serVal.eq_def]
  show '[' :: '\n' ::
      (joinItems ((x :: xs).attach.map
        (fun y => indentChars (lvl + 1) ++ serVal (lvl + 1) y.1)) ++
       '\n' :: (indentChars lvl ++ [']'])) = _
  rw [List.attach_map_val (x :: xs)
    (fun y => indentChars (lvl + 1) ++ serVal (lvl + 1) y)]

theorem serVal_obj_nil (lvl : ℕ) : serVal lvl (.obj []) = ['\x7b', '\x7d'] := by
  rw [serVal.eq_def]

theorem serVal_obj_cons (lvl : ℕ) (q : String × JVal) (ps : List (String × JVal)) :
    serVal lvl (.obj (q :: ps)) =
      '\x7b' :: '\n' ::
        (joinItems ((q :: ps).map
          (fun r => indentChars (lvl + 1) ++ serString r.1 ++
                    ':' :: ' ' :: serVal (lvl + 1) r.2)) ++
         '\n' :: (indentChars lvl ++ ['\x7d'])) := by
  rw [serVal.eq_def]
  show '\x7b' :: '\n' ::
      (joinItems ((q :: ps).attach.map
        (fun r => indentChars (lvl + 1) ++ serString r.1.1 ++
                  ':' :: ' ' :: serVal (lvl + 1) r.1.2)) ++
       '\n' :: (indentChars lvl ++ ['\x7d'])) = _
  rw [List.attach_map_val (q :: ps)
    (fun r => indentChars (lvl + 1) ++ serString r.1 ++
              ':' :: ' ' :: serVal (lvl + 1) r.2)]

theorem jneed_null : jneed .null = 1 := by rw [jneed.eq_def]

theorem jneed_bool (b : Bool) : jneed (.bool b) = 1 := by rw [jneed.eq_def]

theorem jneed_num (n : ℤ) : jneed (.num n) = 1 := by rw [jneed.eq_def]

theorem jneed_str (s : String) : jneed (.str s) = 1 := by rw [jneed.eq_def]

theorem jneed_arr (l : List JVal) : jneed (.arr l) = 1 + jneedItems l := by
  rw [jneed.eq_def]
  show 1 + (l.attach.map (fun x => jneed x.1 + 1)).sum = _
  rw [List.attach_map_val l (fun x => jneed x + 1)]
  rfl

theorem jneed_obj (l : List (String × JVal)) :
    jneed (.obj l) = 1 + jneedFields l := by
  rw [jneed.eq_def]
  show 1 + (l.attach.map (fun p => jneed p.1.2 + 1)).sum = _
  rw [List.attach_map_val l (fun p => jneed p.2 + 1)]
  rfl

theorem jneed_pos (v : JVal) : 1 ≤ jneed v := by
  cases v with
  | null => rw [jneed_null]
  | bool b => rw [jneed_bool]
  | num n => rw [jneed_num]
  | str s => rw [jneed_str]
  | arr l => rw [jneed_arr]; omega
  | obj l => rw [jneed_obj]; omega

theorem jneedItems_nil : jneedItems [] = 0 := rfl

theorem jneedItems_cons (x : JVal) (xs : List JVal) :
    jneedItems (x :: xs) = (jneed x + 1) + jneedItems xs := by
  simp [jneedItems]

theorem jneedFields_nil : jneedFields [] = 0 := rfl

theorem jneedFields_cons (q : String × JVal) (ps : List (String × JVal)) :
    jneedFields (q :: ps) = (jneed q.2 + 1) + jneedFields ps := by
  simp [jneedFields]

/-- The first character of any serialized value: never whitespace and
never a closing bracket or brace. -/
theorem serVal_head (lvl : ℕ) (v : JVal) :
    ∃ c t, serVal lvl v = c :: t ∧ isJsonWs c = false ∧ c ≠ ']' ∧ c ≠ '\x7d' := by
  cases v with
  | null => exact ⟨'n', _, serVal_null lvl, by decide, by decide, by decide⟩
  | bool b =>
    cases b
    · exact ⟨'f', _, by rw [serVal_bool]; rfl, by decide, by decide, by decide⟩
    · exact ⟨'t', _, by rw [serVal_bool]; rfl, by decide, by decide, by decide⟩
  | num n =>
    rw [serVal_num]
    by_cases hn : n < 0
    · refine ⟨'-', serNat n.natAbs, ?_, by decide, by decide, by decide⟩
      simp [serInt, hn]
    · obtain ⟨d, t, hd, hshape⟩ := serNat_shape n.natAbs
      have hspec := digitChar_spec d hd
      refine ⟨Char.ofNat (48 + d), t, ?_, hspec.2.2.1,
        hspec.2.2.2.2.2.2.2.2.2.2.1, hspec.2.2.2.2.2.2.2.2.2.2.2⟩
      rw [show serInt n = serNat n.natAbs from by simp [serInt, hn], hshape]
  | str s =>
    exact ⟨'"', _, by rw [serVal_str]; rfl, by decide, by decide, by decide⟩
  | arr l =>
    cases l with
    | nil => exact ⟨'[', _, serVal_arr_nil lvl, by decide, by decide, by decide⟩
    | cons x xs =>
      exact ⟨'[', _, serVal_arr_cons lvl x xs, by decide, by decide, by decide⟩
  | obj l =>
    cases l with
    | nil => exact ⟨'\x7b', _, serVal_obj_nil lvl, by decide, by decide, by decide⟩
    | cons q ps =>
      exact ⟨'\x7b', _, serVal_obj_cons lvl q ps, by decide, by decide, by decide⟩

/-- The serialized items-and-closer of a non-empty array, re-associated
around its first element. -/
theorem arr_tail_eq (lvl : ℕ) (x : JVal) (xs : List JVal) (rest : List Char) :
    (joinItems ((x :: xs).map
        (fun y => indentChars (lvl + 1) ++ serVal (lvl + 1) y)) ++
      '\n' :: (indentChars lvl ++ [']'])) ++ rest =
    indentChars (lvl + 1) ++ (serVal (lvl + 1) x ++ arrRest lvl (lvl + 1) xs rest) := by
  induction xs generalizing x with
  | nil => simp [joinItems, arrRest]
  | cons y ys ih =>
    rw [show arrRest lvl (lvl + 1) (y :: ys) rest =
      ',' :: '\n' :: (indentChars (lvl + 1) ++
        (serVal (lvl + 1) y ++ arrRest lvl (lvl + 1) ys rest)) from rfl]
    rw [← ih y]
    simp [joinItems]

/-- The serialized entries-and-closer of a non-empty object,
re-associated around its first entry. -/
theorem obj_tail_eq (lvl : ℕ) (q : String × JVal) (ps : List (String × JVal))
    (rest : List Char) :
    (joinItems ((q :: ps).map
        (fun r => indentChars (lvl + 1) ++ serString r.1 ++
                  ':' :: ' ' :: serVal (lvl + 1) r.2)) ++
      '\n' :: (indentChars lvl ++ ['\x7d'])) ++ rest =
    indentChars (lvl + 1) ++ (serString q.1 ++
      ':' :: ' ' :: (serVal (lvl + 1) q.2 ++ objRest lvl (lvl + 1) ps rest)) := by
  induction ps generalizing q with
  | nil => simp [joinItems, objRest]
  | cons r rs ih =>
    rw [show objRest lvl (lvl + 1) (r :: rs) rest =
      ',' :: '\n' :: (indentChars (lvl + 1) ++
        (serString r.1 ++ ':' :: ' ' ::
          (serVal (lvl + 1) r.2 ++ objRest lvl (lvl + 1) rs rest))) from rfl]
    rw [← ih r]
    simp [joinItems]

theorem wsPre_newline_indent (lvl : ℕ) :
    ∀ c ∈ '\n' :: indentChars lvl, isJsonWs c = true := by
  intro c hc
  rcases List.mem_cons.mp hc with rfl | hc
  · decide
  · rw [indentChars] at hc
    rw [List.eq_of_mem_replicate hc]
    decide

/-- Reading back the serialized items of a non-empty array (first item,
then `arrRest`). -/
theorem parseArrItems_round (lvl : ℕ) (xs : List JVal) :
    ∀ (x : JVal)
      (IH : ∀ y ∈ x :: xs, ∀ lvl' fuel rest, jneed y ≤ fuel → headNotDigit rest →
        parseVal fuel (serVal lvl' y ++ rest) = some (y, rest))
      (fuel : ℕ) (rest : List Char), jneedItems (x :: xs) ≤ fuel →
      parseArrItems fuel
        (serVal (lvl + 1) x ++ arrRest lvl (lvl + 1) xs rest) =
        some (x :: xs, rest) := by
  induction xs with
  | nil =>
    intro x IH fuel rest hfuel
    rw [jneedItems_cons, jneedItems_nil] at hfuel
    obtain ⟨f, rfl⟩ : ∃ f, fuel = f + 1 := ⟨fuel - 1, by omega⟩
    rw [parseArrItems_succ]
    have hrd : headNotDigit (arrRest lvl (lvl + 1) [] rest) := by
      rw [show arrRest lvl (lvl + 1) [] rest =
        '\n' :: (indentChars lvl ++ ']' :: rest) from rfl]
      show ('\n'.isDigit = false)
      decide
    rw [IH x (List.mem_cons_self _ _) (lvl + 1) (f + 1) _ (by omega) hrd]
    have h1 : skipWs (']' :: rest) = ']' :: rest := skipWs_cons_not _ (by decide)
    simp [show arrRest lvl (lvl + 1) [] rest =
      '\n' :: (indentChars lvl ++ ']' :: rest) from rfl,
      skipWs_newline, skipWs_indent, h1]
  | cons y ys ih =>
    intro x IH fuel rest hfuel
    rw [jneedItems_cons] at hfuel
    have hyc : 1 ≤ jneedItems (y :: ys) := by
      rw [jneedItems_cons]
      omega
    obtain ⟨f, rfl⟩ : ∃ f, fuel = f + 1 := ⟨fuel - 1, by omega⟩
    rw [parseArrItems_succ]
    have hrd : headNotDigit (arrRest lvl (lvl + 1) (y :: ys) rest) := by
      rw [show arrRest lvl (lvl + 1) (y :: ys) rest =
        ',' :: '\n' :: (indentChars (lvl + 1) ++
          (serVal (lvl + 1) y ++ arrRest lvl (lvl + 1) ys rest)) from rfl]
      show (','.isDigit = false)
      decide
    rw [IH x (List.mem_cons_self _ _) (lvl + 1) (f + 1) _ (by omega) hrd]
    have h1 : skipWs (',' :: '\n' :: (indentChars (lvl + 1) ++
        (serVal (lvl + 1) y ++ arrRest lvl (lvl + 1) ys rest))) =
        ',' :: '\n' :: (indentChars (lvl + 1) ++
        (serVal (lvl + 1) y ++ arrRest lvl (lvl + 1) ys rest)) :=
      skipWs_cons_not _ (by decide)
    have h2 : parseArrItems f ('\n' :: (indentChars (lvl + 1) ++
        (serVal (lvl + 1) y ++ arrRest lvl (lvl + 1) ys rest))) =
        some (y :: ys, rest) := by
      rw [show '\n' :: (indentChars (lvl + 1) ++
          (serVal (lvl + 1) y ++ arrRest lvl (lvl + 1) ys rest)) =
        ('\n' :: indentChars (lvl + 1)) ++
          (serVal (lvl + 1) y ++ arrRest lvl (lvl + 1) ys rest) from rfl]
      rw [parseArrItems_ws_append f _ (wsPre_newline_indent (lvl + 1)) _]
      exact ih y (fun z hz => IH z (List.mem_cons_of_mem _ hz)) f rest (by omega)
    simp [show arrRest lvl (lvl + 1) (y :: ys) rest =
      ',' :: '\n' :: (indentChars (lvl + 1) ++
        (serVal (lvl + 1) y ++ arrRest lvl (lvl + 1) ys rest)) from rfl,
      h1, h2]

/-- Reading back the serialized entries of a non-empty object (first
entry, then `objRest`). -/
theorem parseObjItems_round (lvl : ℕ) (ps : List (String × JVal)) :
    ∀ (q : String × JVal)
      (IH : ∀ r ∈ q :: ps, ∀ lvl' fuel rest, jneed r.2 ≤ fuel → headNotDigit rest →
        parseVal fuel (serVal lvl' r.2 ++ rest) = some (r.2, rest))
      (fuel : ℕ) (rest : List Char), jneedFields (q :: ps) ≤ fuel →
      parseObjItems fuel
        (serString q.1 ++
          ':' :: ' ' :: (serVal (lvl + 1) q.2 ++ objRest lvl (lvl + 1) ps rest)) =
        some (q :: ps, rest) := by
  induction ps with
  | nil =>
    intro q IH fuel rest hfuel
    rw [jneedFields_cons, jneedFields_nil] at hfuel
    obtain ⟨f, rfl⟩ : ∃ f, fuel = f + 1 := ⟨fuel - 1, by omega⟩
    rw [parseObjItems_succ]
    rw [show serString q.1 ++
        ':' :: ' ' :: (serVal (lvl + 1) q.2 ++ objRest lvl (lvl + 1) [] rest) =
      '"' :: ((q.1.data.map escChar).flatten ++
        '"' :: (':' :: ' ' :: (serVal (lvl + 1) q.2 ++ objRest lvl (lvl + 1) [] rest)))
      from by simp [serString]]
    rw [skipWs_cons_not _ (by decide)]
    have hstr := parseStringBody_ser q.1.data
      (':' :: ' ' :: (serVal (lvl + 1) q.2 ++ objRest lvl (lvl + 1) [] rest))
    have hcolon : skipWs (':' :: ' ' ::
        (serVal (lvl + 1) q.2 ++ objRest lvl (lvl + 1) [] rest)) =
        ':' :: ' ' :: (serVal (lvl + 1) q.2 ++ objRest lvl (lvl + 1) [] rest) :=
      skipWs_cons_not _ (by decide)
    have hrd : headNotDigit (objRest lvl (lvl + 1) [] rest) := by
      rw [show objRest lvl (lvl + 1) [] rest =
        '\n' :: (indentChars lvl ++ '\x7d' :: rest) from rfl]
      show ('\n'.isDigit = false)
      decide
    have hval : parseVal (f + 1)
        (' ' :: (serVal (lvl + 1) q.2 ++ objRest lvl (lvl + 1) [] rest)) =
        some (q.2, objRest lvl (lvl + 1) [] rest) := by
      rw [show ' ' :: (serVal (lvl + 1) q.2 ++ objRest lvl (lvl + 1) [] rest) =
        [' '] ++ (serVal (lvl + 1) q.2 ++ objRest lvl (lvl + 1) [] rest) from rfl]
      rw [parseVal_ws_append (f + 1) [' '] (by decide) _]
      exact IH q (List.mem_cons_self _ _) (lvl + 1) (f + 1) _ (by omega) hrd
    have hclose : skipWs ('\x7d' :: rest) = '\x7d' :: rest :=
      skipWs_cons_not _ (by decide)
    simp only [hstr, hcolon, hval]
    simp [show objRest lvl (lvl + 1) [] rest =
        '\n' :: (indentChars lvl ++ '\x7d' :: rest) from rfl,
      skipWs_newline, skipWs_indent, hclose]
  | cons r rs ih =>
    intro q IH fuel rest hfuel
    rw [jneedFields_cons] at hfuel
    have hrc : 1 ≤ jneedFields (r :: rs) := by
      rw [jneedFields_cons]
      omega
    obtain ⟨f, rfl⟩ : ∃ f, fuel = f + 1 := ⟨fuel - 1, by omega⟩
    rw [parseObjItems_succ]
    rw [show serString q.1 ++
        ':' :: ' ' :: (serVal (lvl + 1) q.2 ++ objRest lvl (lvl + 1) (r :: rs) rest) =
      '"' :: ((q.1.data.map escChar).flatten ++
        '"' :: (':' :: ' ' ::
          (serVal (lvl + 1) q.2 ++ objRest lvl (lvl + 1) (r :: rs) rest)))
      from by simp [serString]]
    rw [skipWs_cons_not _ (by decide)]
    have hstr := parseStringBody_ser q.1.data
      (':' :: ' ' :: (serVal (lvl + 1) q.2 ++ objRest lvl (lvl + 1) (r :: rs) rest))
    have hcolon : skipWs (':' :: ' ' ::
        (serVal (lvl + 1) q.2 ++ objRest lvl (lvl + 1) (r :: rs) rest)) =
        ':' :: ' ' :: (serVal (lvl + 1) q.2 ++ objRest lvl (lvl + 1) (r :: rs) rest) :=
      skipWs_cons_not _ (by decide)
    have hobjrest : objRest lvl (lvl + 1) (r :: rs) rest =
        ',' :: '\n' :: (indentChars (lvl + 1) ++
          (serString r.1 ++ ':' :: ' ' ::
            (serVal (lvl + 1) r.2 ++ objRest lvl (lvl + 1) rs rest))) := rfl
    have hrd : headNotDigit (objRest lvl (lvl + 1) (r :: rs) rest) := by
      rw [hobjrest]
      show (','.isDigit = false)
      decide
    have hval : parseVal (f + 1)
        (' ' :: (serVal (lvl + 1) q.2 ++ objRest lvl (lvl + 1) (r :: rs) rest)) =
        some (q.2, objRest lvl (lvl + 1) (r :: rs) rest) := by
      rw [show ' ' :: (serVal (lvl + 1) q.2 ++ objRest lvl (lvl + 1) (r :: rs) rest) =
        [' '] ++ (serVal (lvl + 1) q.2 ++ objRest lvl (lvl + 1) (r :: rs) rest)
        from rfl]
      rw [parseVal_ws_append (f + 1) [' '] (by decide) _]
      exact IH q (List.mem_cons_self _ _) (lvl + 1) (f + 1) _ (by omega) hrd
    have hcomma : skipWs (',' :: '\n' :: (indentChars (lvl + 1) ++
        (serString r.1 ++ ':' :: ' ' ::
          (serVal (lvl + 1) r.2 ++ objRest lvl (lvl + 1) rs rest)))) =
        ',' :: '\n' :: (indentChars (lvl + 1) ++
        (serString r.1 ++ ':' :: ' ' ::
          (serVal (lvl + 1) r.2 ++ objRest lvl (lvl + 1) rs rest))) :=
      skipWs_cons_not _ (by decide)
    have hnext : parseObjItems f ('\n' :: (indentChars (lvl + 1) ++
        (serString r.1 ++ ':' :: ' ' ::
          (serVal (lvl + 1) r.2 ++ objRest lvl (lvl + 1) rs rest)))) =
        some (r :: rs, rest) := by
      have hq2 := jneed_pos q.2
      cases f with
      | zero => omega
      | succ f2 =>
        rw [show '\n' :: (indentChars (lvl + 1) ++
            (serString r.1 ++ ':' :: ' ' ::
              (serVal (lvl + 1) r.2 ++ objRest lvl (lvl + 1) rs rest))) =
          ('\n' :: indentChars (lvl + 1)) ++
            (serString r.1 ++ ':' :: ' ' ::
              (serVal (lvl + 1) r.2 ++ objRest lvl (lvl + 1) rs rest)) from rfl]
        rw [show parseObjItems (f2 + 1)
            (('\n' :: indentChars (lvl + 1)) ++
              (serString r.1 ++ ':' :: ' ' ::
                (serVal (lvl + 1) r.2 ++ objRest lvl (lvl + 1) rs rest))) =
          parseObjItems (f2 + 1)
            (serString r.1 ++ ':' :: ' ' ::
              (serVal (lvl + 1) r.2 ++ objRest lvl (lvl + 1) rs rest)) from by
          rw [parseObjItems_succ, parseObjItems_succ,
            skipWs_ws_append _ (wsPre_newline_indent (lvl + 1))]]
        exact ih r (fun z hz => IH z (List.mem_cons_of_mem _ hz)) (f2 + 1) rest
          (by omega)
    simp only [hstr, hcolon, hval]
    simp [hobjrest, hcomma, hnext]

/-- Reading back any serialized value: the central printer/reader
round-trip. -/
theorem parseVal_ser (v : JVal) :
    ∀ (lvl fuel : ℕ) (rest : List Char), jneed v ≤ fuel → headNotDigit rest →
      parseVal fuel (serVal lvl v ++ rest) = some (v, rest) := by
  induction v using JVal.memInduction with
  | hnull =>
    intro lvl fuel rest hfuel _
    rw [jneed_null] at hfuel
    obtain ⟨f, rfl⟩ : ∃ f, fuel = f + 1 := ⟨fuel - 1, by omega⟩
    rw [serVal_null, parseVal_succ,
      show (['n', 'u', 'l', 'l'] ++ rest : List Char) =
        'n' :: 'u' :: 'l' :: 'l' :: rest from rfl,
      skipWs_cons_not _ (by decide)]
    simp
  | hbool b =>
    intro lvl fuel rest hfuel _
    rw [jneed_bool] at hfuel
    obtain ⟨f, rfl⟩ : ∃ f, fuel = f + 1 := ⟨fuel - 1, by omega⟩
    cases b
    · rw [serVal_bool, if_neg (by decide), parseVal_succ,
        show (['f', 'a', 'l', 's', 'e'] ++ rest : List Char) =
          'f' :: 'a' :: 'l' :: 's' :: 'e' :: rest from rfl,
        skipWs_cons_not _ (by decide)]
      simp
    · rw [serVal_bool, if_pos (by decide), parseVal_succ,
        show (['t', 'r', 'u', 'e'] ++ rest : List Char) =
          't' :: 'r' :: 'u' :: 'e' :: rest from rfl,
        skipWs_cons_not _ (by decide)]
      simp
  | hnum n =>
    intro lvl fuel rest hfuel hrest
    rw [jneed_num] at hfuel
    obtain ⟨f, rfl⟩ : ∃ f, fuel = f + 1 := ⟨fuel - 1, by omega⟩
    rw [serVal_num, parseVal_succ]
    have hnum := parseNumberTok_ser n rest hrest
    by_cases hn : n < 0
    · rw [show serInt n = '-' :: serNat n.natAbs from by simp [serInt, hn],
        List.cons_append, skipWs_cons_not _ (by decide)]
      simp only [show ('-' = 'n') = False by simp, show ('-' = 't') = False by simp,
        show ('-' = 'f') = False by simp, show ('-' = '"') = False by simp,
        show ('-' = '[') = False by simp, show ('-' = '\x7b') = False by simp,
        if_false, if_pos (by decide : ('-' = '-' || '-'.isDigit) = true)]
      rw [← List.cons_append,
        ← show serInt n = '-' :: serNat n.natAbs from by simp [serInt, hn]]
      exact hnum
    · obtain ⟨d, t, hd, hshape⟩ := serNat_shape n.natAbs
      have hspec := digitChar_spec d hd
      have hser : serInt n = Char.ofNat (48 + d) :: t := by
        rw [show serInt n = serNat n.natAbs from by simp [serInt, hn], hshape]
      rw [hser, List.cons_append, skipWs_cons_not _ hspec.2.2.1]
      simp only [show (Char.ofNat (48 + d) = 'n') = False by simp [hspec.2.2.2.1],
        show (Char.ofNat (48 + d) = 't') = False by simp [hspec.2.2.2.2.1],
        show (Char.ofNat (48 + d) = 'f') = False by simp [hspec.2.2.2.2.2.1],
        show (Char.ofNat (48 + d) = '"') = False by simp [hspec.2.2.2.2.2.2.1],
        show (Char.ofNat (48 + d) = '[') = False by simp [hspec.2.2.2.2.2.2.2.1],
        show (Char.ofNat (48 + d) = '\x7b') = False by
          simp [hspec.2.2.2.2.2.2.2.2.1],
        if_false,
        if_pos (by simp [hspec.1] :
          (Char.ofNat (48 + d) = '-' || (Char.ofNat (48 + d)).isDigit) = true)]
      rw [← List.cons_append, ← hser]
      exact hnum
  | hstr s =>
    intro lvl fuel rest hfuel _
    rw [jneed_str] at hfuel
    obtain ⟨f, rfl⟩ : ∃ f, fuel = f + 1 := ⟨fuel - 1, by omega⟩
    rw [serVal_str,
      show serString s ++ rest =
        '"' :: ((s.data.map escChar).flatten ++ '"' :: rest) from by
        simp [serString],
      parseVal_succ, skipWs_cons_not _ (by decide)]
    simp [parseStringBody_ser s.data rest]
  | harr l ihmem =>
    intro lvl fuel rest hfuel _
    rw [jneed_arr] at hfuel
    obtain ⟨f, rfl⟩ : ∃ f, fuel = f + 1 := ⟨fuel - 1, by omega⟩
    cases l with
    | nil =>
      rw [serVal_arr_nil, parseVal_succ,
        show (['[', ']'] ++ rest : List Char) = '[' :: ']' :: rest from rfl,
        skipWs_cons_not _ (by decide)]
      have h1 : skipWs (']' :: rest) = ']' :: rest := skipWs_cons_not _ (by decide)
      simp [h1]
    | cons x xs =>
      rw [serVal_arr_cons, List.cons_append, List.cons_append, arr_tail_eq,
        parseVal_succ, skipWs_cons_not _ (by decide)]
      obtain ⟨c0, t, hhead, hws, hne1, _⟩ := serVal_head (lvl + 1) x
      have hskip : skipWs ('\n' :: (indentChars (lvl + 1) ++
          (serVal (lvl + 1) x ++ arrRest lvl (lvl + 1) xs rest))) =
          c0 :: (t ++ arrRest lvl (lvl + 1) xs rest) := by
        rw [skipWs_newline, skipWs_indent, hhead, List.cons_append,
          skipWs_cons_not _ hws]
      have harr : parseArrItems f (c0 :: (t ++ arrRest lvl (lvl + 1) xs rest)) =
          some (x :: xs, rest) := by
        rw [← List.cons_append, ← hhead]
        exact parseArrItems_round lvl xs x ihmem f rest (by omega)
      simp [hskip, hne1, harr]
  | hobj l ihmem =>
    intro lvl fuel rest hfuel _
    rw [jneed_obj] at hfuel
    obtain ⟨f, rfl⟩ : ∃ f, fuel = f + 1 := ⟨fuel - 1, by omega⟩
    cases l with
    | nil =>
      rw [serVal_obj_nil, parseVal_succ,
        show (['\x7b', '\x7d'] ++ rest : List Char) =
          '\x7b' :: '\x7d' :: rest from rfl,
        skipWs_cons_not _ (by decide)]
      have h1 : skipWs ('\x7d' :: rest) = '\x7d' :: rest :=
        skipWs_cons_not _ (by decide)
      simp [h1]
    | cons q ps =>
      rw [serVal_obj_cons, List.cons_append, List.cons_append, obj_tail_eq,
        parseVal_succ, skipWs_cons_not _ (by decide)]
      have hskip : skipWs ('\n' :: (indentChars (lvl + 1) ++
          (serString q.1 ++ ':' :: ' ' ::
            (serVal (lvl + 1) q.2 ++ objRest lvl (lvl + 1) ps rest)))) =
          '"' :: ((q.1.data.map escChar).flatten ++
            '"' :: (':' :: ' ' ::
              (serVal (lvl + 1) q.2 ++ objRest lvl (lvl + 1) ps rest))) := by
        rw [skipWs_newline, skipWs_indent,
          show serString q.1 ++ ':' :: ' ' ::
              (serVal (lvl + 1) q.2 ++ objRest lvl (lvl + 1) ps rest) =
            '"' :: ((q.1.data.map escChar).flatten ++
              '"' :: (':' :: ' ' ::
                (serVal (lvl + 1) q.2 ++ objRest lvl (lvl + 1) ps rest)))
            from by simp [serString],
          skipWs_cons_not _ (by decide)]
      have hobjp : parseObjItems f
          ('"' :: ((q.1.data.map escChar).flatten ++
            '"' :: (':' :: ' ' ::
              (serVal (lvl + 1) q.2 ++ objRest lvl (lvl + 1) ps rest)))) =
          some (q :: ps, rest) := by
        have := parseObjItems_round lvl ps q ihmem f rest (by omega)
        rw [show serString q.1 ++ ':' :: ' ' ::
            (serVal (lvl + 1) q.2 ++ objRest lvl (lvl + 1) ps rest) =
          '"' :: ((q.1.data.map escChar).flatten ++
            '"' :: (':' :: ' ' ::
              (serVal (lvl + 1) q.2 ++ objRest lvl (lvl + 1) ps rest)))
          from by simp [serString]] at this
        exact this
      simp [hskip, hobjp]

theorem serInt_ne_nil (n : ℤ) : serInt n ≠ [] := by
  intro h
  by_cases hn : n < 0
  · simp [serInt, hn] at h
  · simp [serInt, hn] at h
    exact serNat_ne_nil _ h

theorem jneedItems_le_join (lvl : ℕ) :
    ∀ l : List JVal, (∀ x ∈ l, ∀ lv, jneed x ≤ (serVal lv x).length) →
      l ≠ [] →
      jneedItems l ≤
        (joinItems (l.map
          (fun y => indentChars (lvl + 1) ++ serVal (lvl + 1) y))).length := by
  intro l
  induction l with
  | nil => intro _ h; exact absurd rfl h
  | cons x xs ih =>
    intro hmem _
    have hx := hmem x (List.mem_cons_self _ _) (lvl + 1)
    cases xs with
    | nil =>
      rw [jneedItems_cons, jneedItems_nil]
      simp [joinItems, indentChars]
      omega
    | cons y ys =>
      have h1 := ih (fun z hz lv => hmem z (List.mem_cons_of_mem _ hz) lv)
        (by simp)
      rw [jneedItems_cons]
      simp only [List.map_cons, joinItems, List.length_append, List.length_cons]
      simp only [List.map_cons, joinItems] at h1
      simp [indentChars] at *
      omega

theorem jneedFields_le_join (lvl : ℕ) :
    ∀ l : List (String × JVal),
      (∀ p ∈ l, ∀ lv, jneed p.2 ≤ (serVal lv p.2).length) →
      l ≠ [] →
      jneedFields l ≤
        (joinItems (l.map
          (fun r => indentChars (lvl + 1) ++ serString r.1 ++
                    ':' :: ' ' :: serVal (lvl + 1) r.2))).length := by
  intro l
  induction l with
  | nil => intro _ h; exact absurd rfl h
  | cons q ps ih =>
    intro hmem _
    have hq := hmem q (List.mem_cons_self _ _) (lvl + 1)
    cases ps with
    | nil =>
      rw [jneedFields_cons, jneedFields_nil]
      simp [joinItems, indentChars, serString]
      omega
    | cons r rs =>
      have h1 := ih (fun z hz lv => hmem z (List.mem_cons_of_mem _ hz) lv)
        (by simp)
      rw [jneedFields_cons]
      simp only [List.map_cons, joinItems, List.length_append, List.length_cons]
      simp only [List.map_cons, joinItems] at h1
      simp [indentChars, serString] at *
      omega

/-- The fuel `jsonLoads` budgets (document length plus one) suffices:
reading back needs at most one unit of fuel per serialized character. -/
theorem jneed_le_serLen (v : JVal) : ∀ lvl, jneed v ≤ (serVal lvl v).length := by
  induction v using JVal.memInduction with
  | hnull => intro lvl; rw [jneed_null, serVal_null]; simp
  | hbool b => intro lvl; rw [jneed_bool, serVal_bool]; cases b <;> simp
  | hnum n =>
    intro lvl
    rw [jneed_num, serVal_num]
    rcases h : serInt n with _ | ⟨c, t⟩
    · exact absurd h (serInt_ne_nil n)
    · simp
  | hstr s =>
    intro lvl
    rw [jneed_str, serVal_str]
    simp [serString]
  | harr l ihmem =>
    intro lvl
    rw [jneed_arr]
    cases l with
    | nil => rw [jneedItems_nil, serVal_arr_nil]; simp
    | cons x xs =>
      have h1 := jneedItems_le_join lvl (x :: xs) ihmem (by simp)
      rw [serVal_arr_cons]
      simp only [List.length_cons, List.length_append]
      omega
  | hobj l ihmem =>
    intro lvl
    rw [jneed_obj]
    cases l with
    | nil => rw [jneedFields_nil, serVal_obj_nil]; simp
    | cons q ps =>
      have h1 := jneedFields_le_join lvl (q :: ps) ihmem (by simp)
      rw [serVal_obj_cons]
      simp only [List.length_cons, List.length_append]
      omega

/-- C9: persisting a config value with `_generate_config`
(`json.dump(..., indent=2)`) and re-loading the persisted text in the
executor (`json.load`) yields a value equal to the original in every
field. -/
theorem c9_persist_reload_round_trip (config : JVal) :
    executor_load_config (generate_config_content config) = some config := by
  unfold executor_load_config jsonLoads generate_config_content jsonDumpsIndent2
  rw [show (⟨serVal 0 config⟩ : String).data = serVal 0 config from rfl]
  have h := parseVal_ser config 0 ((serVal 0 config).length + 1) []
    (le_trans (jneed_le_serLen config 0) (by omega)) trivial
  rw [List.append_nil] at h
  rw [h]
  rfl

end McpToSkill
